import Mathlib

/-!
gokitlogr: a logr.LogSink on top of go-kit/log

Shallow embedding of `gokitlogr.go`.

* Go `interface{}` values are the inductive `Val`; the two optional
  capabilities probed by the type switch of `defaultRender`
  (`logr.Marshaler`, `fmt.Stringer`) are predicates on the dynamic value.
* Go slices are descriptors (`Slice`) into a heap of backing arrays, so that
  `append` writes in place when the slice has spare capacity and allocates a
  new array otherwise, and `defaultRender` overwrites elements in place.
* `*kitlog.Logger` is an address into a heap of logger variables; a
  dereference of an address that holds nothing is a panic (`none`).
* The package-level variables (`NameFieldKey`, ...) are read when a method
  runs; they are passed as a `Config`.
* The go-kit/log backend is an external collaborator: a logger is a base
  logger with context key/values, `With` extends the context, the level
  helpers put a level pair in front, and `Log` is recorded in `State.out`.
-/

namespace gokitlogr

/-! ## Values -/

/-- Severities of go-kit/log/level. -/
inductive Severity where
  | debug
  | info
  | warn
  | error
  deriving DecidableEq, Repr

/-- Go `interface{}` values, by dynamic type.  `marshaler`, `stringer` and
`both` are values of types with a `MarshalLog` method, a `String` method, or
the two of them; the payloads are what the methods return. -/
inductive Val where
  | nil : Val
  | str (s : String) : Val
  | int (i : Int) : Val
  | bool (b : Bool) : Val
  | other (id : Nat) : Val
  | err (text : String) : Val
  | marshaler (out : Val) : Val
  | stringer (out : String) : Val
  | both (m : Val) (s : String) : Val
  | caller (depth : Int) : Val
  | level (sev : Severity) : Val
  deriving DecidableEq, Repr

/-- Name of a go-kit level value (its `String` method). -/
def Severity.name : Severity → String
  | .debug => "debug"
  | .info => "info"
  | .warn => "warn"
  | .error => "error"

/-- Dynamic type implements `logr.Marshaler`. -/
def implementsMarshaler : Val → Bool
  | .marshaler _ => true
  | .both _ _ => true
  | _ => false

/-- Dynamic type implements `fmt.Stringer`. -/
def implementsStringer : Val → Bool
  | .stringer _ => true
  | .both _ _ => true
  | .level _ => true
  | _ => false

/-- Result of `v.MarshalLog()`. -/
def MarshalLog : Val → Val
  | .marshaler out => out
  | .both m _ => m
  | v => v

/-- Result of `v.String()`. -/
def StringOf : Val → String
  | .stringer out => out
  | .both _ s => s
  | .level sev => sev.name
  | _ => ""

/-! ## Package variables -/

/-- The package-level variables of gokitlogr.go, lines 32-47. -/
structure Config where
  NameFieldKey : String
  NameSeparator : String
  ErrorFieldKey : String
  CallerFieldKey : String
  deriving DecidableEq, Repr

/-- Initial values of the package variables. -/
def defaultConfig : Config :=
  { NameFieldKey := "logger", NameSeparator := "/", ErrorFieldKey := "error",
    CallerFieldKey := "caller" }

/-! ## The go-kit/log backend -/

/-- A `kitlog.Logger` value: a base logger and the context key/values bound
to it by `With`. -/
structure Logger where
  base : Nat
  keyvals : List Val
  deriving DecidableEq, Repr

/-- One call of `Log` on a backend logger: the logger it was called on and
the positional arguments. -/
structure Record where
  logger : Logger
  kvs : List Val
  deriving DecidableEq, Repr

/-- The value `log.ErrMissingValue`. -/
def ErrMissingValue : Val := .err "(MISSING)"

/-- Function `kitlog.With(logger, keyvals...)`: the context is extended at its end;
an odd-length context is padded. -/
def kitlogWith (logger : Logger) (keyvals : List Val) : Logger :=
  if keyvals.length = 0 then logger
  else
    let kvs := logger.keyvals ++ keyvals
    { logger with keyvals := if kvs.length % 2 ≠ 0 then kvs ++ [ErrMissingValue] else kvs }

/-- Function `kitlog.Caller(depth)`: a valuer that resolves to file:line of the frame
`depth` levels up when the record is written. -/
def kitlogCaller (depth : Int) : Val := .caller depth

/-- The key used by go-kit/log/level. -/
def levelKey : Val := .str "level"

/-- Put the level pair in front of the context (what the level helpers do). -/
def withLevel (logger : Logger) (sev : Severity) : Logger :=
  { logger with keyvals := levelKey :: Val.level sev :: logger.keyvals }

/-- Function `kitlevel.Debug(logger)`. -/
def kitlevelDebug (logger : Logger) : Logger := withLevel logger .debug

/-- Function `kitlevel.Info(logger)`. -/
def kitlevelInfo (logger : Logger) : Logger := withLevel logger .info

/-- Function `kitlevel.Warn(logger)`. -/
def kitlevelWarn (logger : Logger) : Logger := withLevel logger .warn

/-- Function `kitlevel.Error(logger)`. -/
def kitlevelError (logger : Logger) : Logger := withLevel logger .error

/-- Severity a record was written at: the level pair in front of the context
of the logger it was written to. -/
def Record.severity (r : Record) : Option Severity :=
  match r.logger.keyvals with
  | k :: Val.level sev :: _ => if k = levelKey then some sev else none
  | _ => none

/-- The value bound to `key` by the last pair with that key (last key wins). -/
def lastValueOf (key : Val) : List Val → Option Val
  | k :: v :: rest =>
    match lastValueOf key rest with
    | some w => some w
    | none => if k = key then some v else none
  | _ => none

/-- Depth of the caller valuer that decides the caller field of the records
written through `logger`, under last-key-wins. -/
def effectiveCallerDepth (cfg : Config) (logger : Logger) : Option Int :=
  match lastValueOf (.str cfg.CallerFieldKey) logger.keyvals with
  | some (.caller d) => some d
  | _ => none

/-! ## Heap: backing arrays and logger variables -/

/-- A Go slice header: backing array, offset of the first element, length,
capacity. The nil slice has length and capacity 0. -/
structure Slice where
  arr : Nat
  off : Nat
  len : Nat
  cap : Nat
  deriving DecidableEq, Repr

/-- The nil slice. -/
def nilSlice : Slice := { arr := 0, off := 0, len := 0, cap := 0 }

/-- Program state: the backing arrays, the `kitlog.Logger` variables that
`*kitlog.Logger` pointers point to, and the backend writes made so far. -/
structure State where
  arrays : List (List Val)
  loggers : List Logger
  out : List Record
  deriving DecidableEq, Repr

/-- Backing array `id` (empty when not allocated). -/
def State.array (st : State) (id : Nat) : List Val := st.arrays.getD id []

/-- Replace backing array `id`. -/
def State.store (st : State) (id : Nat) (a : List Val) : State :=
  { st with arrays := st.arrays.set id a }

/-- Elements of a slice, `s[0], ..., s[len-1]`. -/
def readSlice (st : State) (s : Slice) : List Val :=
  ((st.array s.arr).drop s.off).take s.len

/-- Element read `s[i]`. -/
def sliceGet (st : State) (s : Slice) (i : Nat) : Val :=
  (st.array s.arr).getD (s.off + i) Val.nil

/-- Element write `s[i] = v`. -/
def sliceSet (st : State) (s : Slice) (i : Nat) (v : Val) : State :=
  st.store s.arr ((st.array s.arr).set (s.off + i) v)

/-- A slice header the Go runtime can hold: the capacity lies inside the
backing array. -/
def SliceOK (st : State) (s : Slice) : Prop :=
  s.len ≤ s.cap ∧ s.off + s.cap ≤ (st.array s.arr).length

instance (st : State) (s : Slice) : Decidable (SliceOK st s) := by
  unfold SliceOK; infer_instance

/-- Copy `xs` over the elements of `a` from position `pos` on. -/
def writeAt (a : List Val) (pos : Nat) (xs : List Val) : List Val :=
  a.take pos ++ xs ++ a.drop (pos + xs.length)

/-- Go `append(s, xs...)`.  With enough capacity the elements are written
into the backing array of `s` right after its length; otherwise a new array
is allocated, of the capacity the runtime chooses (`grow oldCap needed`, at
least `needed`), and the old elements are copied. -/
def goAppend (grow : Nat → Nat → Nat) (st : State) (s : Slice) (xs : List Val) :
    State × Slice :=
  if s.len + xs.length ≤ s.cap then
    (st.store s.arr (writeAt (st.array s.arr) (s.off + s.len) xs),
     { s with len := s.len + xs.length })
  else
    let newcap := max (grow s.cap (s.len + xs.length)) (s.len + xs.length)
    ({ st with arrays := st.arrays ++
        [readSlice st s ++ xs ++ List.replicate (newcap - (s.len + xs.length)) Val.nil] },
     { arr := st.arrays.length, off := 0, len := s.len + xs.length, cap := newcap })

/-- Capacity chosen by the Go runtime when a slice of `interface{}` grows,
for capacities up to 16 elements (no size-class rounding there): the needed
length when it exceeds twice the old capacity, twice the old capacity
otherwise. -/
def goGrow (oldCap needed : Nat) : Nat :=
  if 2 * oldCap < needed then needed else 2 * oldCap

/-- The call `logger.Log(kvs...)` on the backend: one record, holding the elements of
`kvs` at the time of the call. -/
def kitlogLog (st : State) (logger : Logger) (kvs : Slice) : State :=
  { st with out := st.out ++ [{ logger := logger, kvs := readSlice st kvs }] }

/-! ## gokitlogr.go -/

/-- Go `int` arithmetic: two's complement, 64 bits. -/
def wrapInt (x : Int) : Int :=
  (x + 9223372036854775808) % 18446744073709551616 - 9223372036854775808

/-- The struct `kitlogger`. -/
structure kitlogger where
  kl : Nat
  name : String
  values : Slice
  depth : Int
  deriving DecidableEq, Repr

/-- The struct `logr.RuntimeInfo`. -/
structure RuntimeInfo where
  CallDepth : Int
  deriving DecidableEq, Repr

/-- Function `newKitLogger(l)`: `&kitlogger{kl: l}`. -/
def newKitLogger (l : Nat) : kitlogger :=
  { kl := l, name := "", values := nilSlice, depth := 0 }

/-- Method `Enabled(level)`. -/
def Enabled (_l : kitlogger) (level : Int) : Bool :=
  let debugLevel : Int := 2
  decide (level ≤ debugLevel)

/-- Method `WithName(name)`; the receiver is a copy, the result is that copy. -/
def WithName (cfg : Config) (l : kitlogger) (name : String) : kitlogger :=
  if l.name ≠ "" then
    { l with name := l.name ++ (cfg.NameSeparator ++ name) }
  else
    { l with name := name }

/-- Method `WithValues(keysAndValues...)`; the receiver is a copy, but its `values`
header still points to the receiver's backing array. -/
def WithValues (grow : Nat → Nat → Nat) (st : State) (l : kitlogger)
    (keysAndValues : List Val) : State × kitlogger :=
  let r := goAppend grow st l.values keysAndValues
  (r.1, { l with values := r.2 })

/-- Body of the loop of `defaultRender`: the type switch on
`keysAndValues[i]`, with the assignment to `keysAndValues[i]` in its two
cases. -/
def renderAt (st : State) (keysAndValues : Slice) (i : Nat) : State :=
  let value := sliceGet st keysAndValues i
  if implementsMarshaler value then sliceSet st keysAndValues i (MarshalLog value)
  else if implementsStringer value then sliceSet st keysAndValues i (Val.str (StringOf value))
  else st

/-- The loop of `defaultRender`: `for i < n; i += 2`, writing in place.
`none` when the fuel runs out before the loop condition fails. -/
def defaultRenderLoop : Nat → State → Slice → Nat → Nat → Option State
  | 0, st, _, i, n => if i < n then none else some st
  | fuel + 1, st, keysAndValues, i, n =>
    if i < n then defaultRenderLoop fuel (renderAt st keysAndValues i) keysAndValues (i + 2) n
    else some st

/-- Function `defaultRender(keysAndValues)`: renders in place and returns the same
slice header. -/
def defaultRender (st : State) (keysAndValues : Slice) : Option (State × Slice) :=
  match defaultRenderLoop keysAndValues.len st keysAndValues 1 keysAndValues.len with
  | none => none
  | some st1 => some (st1, keysAndValues)

/-- Method `Info(level, msg, keysAndValues...)`.  `keysAndValues` is the contents of
the variadic slice, which is only read. `none` is a panic (nil `kl`). -/
def Info (grow : Nat → Nat → Nat) (cfg : Config) (st : State) (l : kitlogger)
    (level : Int) (msg : String) (keysAndValues : List Val) : Option State :=
  let r1 := goAppend grow st l.values keysAndValues
  let r2 := goAppend grow r1.1 r1.2 [Val.str "msg", Val.str msg]
  let r3 := if l.name ≠ "" then
      goAppend grow r2.1 r2.2 [Val.str cfg.NameFieldKey, Val.str l.name]
    else r2
  match defaultRender r3.1 r3.2 with
  | none => none
  | some r4 =>
    match r4.1.loggers[l.kl]? with
    | none => none
    | some lg =>
      if level > 1 then some (kitlogLog r4.1 (kitlevelDebug lg) r4.2)
      else some (kitlogLog r4.1 (kitlevelInfo lg) r4.2)

/-- Method `Error(err, msg, keysAndValues...)`. -/
def Error (grow : Nat → Nat → Nat) (cfg : Config) (st : State) (l : kitlogger)
    (err : Val) (msg : String) (keysAndValues : List Val) : Option State :=
  let r1 := goAppend grow st l.values keysAndValues
  let r2 := goAppend grow r1.1 r1.2
    [Val.str "msg", Val.str msg, Val.str cfg.ErrorFieldKey, err]
  let r3 := if l.name ≠ "" then
      goAppend grow r2.1 r2.2 [Val.str cfg.NameFieldKey, Val.str l.name]
    else r2
  match defaultRender r3.1 r3.2 with
  | none => none
  | some r4 =>
    match r4.1.loggers[l.kl]? with
    | none => none
    | some lg => some (kitlogLog r4.1 (kitlevelError lg) r4.2)

/-- Method `Init(info)`. -/
def Init (l : kitlogger) (info : RuntimeInfo) : kitlogger :=
  { l with depth := wrapInt (info.CallDepth + 4) }

/-- Method `WithCallDepth(depth)`; the receiver is a copy whose `kl` is pointed to a
new logger variable. `none` is a panic (nil `kl`). -/
def WithCallDepth (cfg : Config) (st : State) (l : kitlogger) (depth : Int) :
    Option (State × kitlogger) :=
  match st.loggers[l.kl]? with
  | none => none
  | some lg =>
    let newLogger :=
      kitlogWith lg [Val.str cfg.CallerFieldKey, kitlogCaller (wrapInt (l.depth + depth))]
    some ({ st with loggers := st.loggers ++ [newLogger] },
          { l with kl := st.loggers.length })

/-- Method `GetUnderlying()`. -/
def GetUnderlying (st : State) (l : kitlogger) : Option Logger :=
  st.loggers[l.kl]?

/-! ## Reference rendering of a key/value sequence -/

/-- Rendering of one value slot: the result of `MarshalLog` when the value
implements `logr.Marshaler`, otherwise the result of `String` when it
implements `fmt.Stringer`, otherwise the value itself. -/
def renderValue (value : Val) : Val :=
  if implementsMarshaler value then MarshalLog value
  else if implementsStringer value then Val.str (StringOf value)
  else value

/-- Rendering of a sequence of alternating keys and values: keys stay, values
are rendered once; a trailing key without value stays. -/
def renderPairs : List Val → List Val
  | k :: v :: rest => k :: renderValue v :: renderPairs rest
  | xs => xs

/-- Function `defaultRender` run on a fresh slice holding `xs`: the elements of the
slice it returns. -/
def defaultRenderOf (xs : List Val) : Option (List Val) :=
  match defaultRender { arrays := [xs], loggers := [], out := [] }
      { arr := 0, off := 0, len := xs.length, cap := xs.length } with
  | none => none
  | some r => some (readSlice r.1 r.2)

/-! ## Definitions used to state the properties -/

/-- The name pair `Info` and `Error` append when the name is set. -/
def nameTail (cfg : Config) (l : kitlogger) : List Val :=
  if l.name ≠ "" then [Val.str cfg.NameFieldKey, Val.str l.name] else []

/-- The three derivation operations of the sink. -/
inductive Derivation where
  | withName (segment : String)
  | withValues (keysAndValues : List Val)
  | withCallDepth (depth : Int)
  deriving DecidableEq, Repr

/-- Run a derivation on `l`: the state after it and the derived sink. -/
def derive (grow : Nat → Nat → Nat) (cfg : Config) (st : State) (l : kitlogger) :
    Derivation → Option (State × kitlogger)
  | .withName segment => some (st, WithName cfg l segment)
  | .withValues keysAndValues => some (WithValues grow st l keysAndValues)
  | .withCallDepth depth => WithCallDepth cfg st l depth

/-- Key of the last pair of a key/value sequence. -/
def lastPairKey (xs : List Val) : Option Val :=
  match xs.reverse with
  | _ :: k :: _ => some k
  | _ => none

/-- The sequences written so far, oldest first. -/
def written (st : State) : List (List Val) := st.out.map Record.kvs

/-- State of the example test after `gokitlogr.New(&kl)`: one logger variable,
holding a logger with the context `"caller", Caller(5)`; nothing written. -/
def exState : State :=
  { arrays := [], loggers := [{ base := 0, keyvals := [Val.str "caller", Val.caller 5] }],
    out := [] }

/-- The root sink of the example: `newKitLogger(&kl)` after `Init` with the
call depth logr passes. -/
def exRoot : kitlogger := Init (newKitLogger 0) { CallDepth := 1 }

/-- Example: `New(&kl).WithName("MyName").WithValues("module", "example")`. -/
def exLogger : State × kitlogger :=
  WithValues goGrow exState (WithName defaultConfig exRoot "MyName")
    [Val.str "module", Val.str "example"]

/-- Depth of the caller valuer that decides the caller field of what the
derived sink `r` logs, under last-key-wins. -/
def callerDepthOf (cfg : Config) (r : Option (State × kitlogger)) : Option Int :=
  match r with
  | none => none
  | some (st, l) =>
    match GetUnderlying st l with
    | none => none
    | some lg => effectiveCallerDepth cfg lg

/-- Example: `WithCallDepth(1).WithCallDepth(2)` on the root sink. -/
def exDepthTwice : Option (State × kitlogger) :=
  match WithCallDepth defaultConfig exState exRoot 1 with
  | none => none
  | some (st1, l1) => WithCallDepth defaultConfig st1 l1 2

/-- Example: `WithCallDepth(3)` on the root sink. -/
def exDepthOnce : Option (State × kitlogger) :=
  WithCallDepth defaultConfig exState exRoot 3

/-- Example parent:
`New(&kl).WithValues("a", 1).WithValues("b", 2).WithValues("c", 3)`; its
`values` has length 6 and capacity 8. -/
def exParent : State × kitlogger :=
  let r1 := WithValues goGrow exState exRoot [Val.str "a", Val.int 1]
  let r2 := WithValues goGrow r1.1 r1.2 [Val.str "b", Val.int 2]
  WithValues goGrow r2.1 r2.2 [Val.str "c", Val.int 3]

/-- Example first child: `c := p.WithValues("x", 1)`. -/
def exChildC : State × kitlogger :=
  WithValues goGrow exParent.1 exParent.2 [Val.str "x", Val.int 1]

/-- Example second child, derived after the first from the same parent:
`d := p.WithValues("y", 2)`. -/
def exChildD : State × kitlogger :=
  WithValues goGrow exChildC.1 exParent.2 [Val.str "y", Val.int 2]

/-- Example heap for `defaultRender`: one array of nine elements, the last
one a key without value; the value slots hold a value with both methods, a
stringer, a marshaler whose result is a stringer, and an integer. -/
def exRenderState : State :=
  { arrays := [[Val.str "k1", Val.both (Val.int 7) "seven",
      Val.stringer "key", Val.stringer "s",
      Val.str "k3", Val.marshaler (Val.stringer "inner"),
      Val.str "k4", Val.int 4,
      Val.stringer "last"]],
    loggers := [], out := [] }

/-- The slice over the whole array of `exRenderState`. -/
def exRenderSlice : Slice := { arr := 0, off := 0, len := 9, cap := 9 }

/-- The elements of `k` lie outside the capacity region of `s`: in another
backing array, or before its first element, or behind its capacity. -/
def Apart (k s : Slice) : Prop :=
  k.arr ≠ s.arr ∨ k.off + k.len ≤ s.off ∨ s.off + s.cap ≤ k.off

instance (k s : Slice) : Decidable (Apart k s) := by
  unfold Apart; infer_instance

/-- Example: the state of `exLogger` with one more array, allocated by the
caller for the variadic arguments `"val2", S` where `S` is a stringer. -/
def exCallerState : State :=
  { exLogger.1 with
    arrays := exLogger.1.arrays ++ [[Val.str "val2", Val.stringer "s"]] }

/-- The caller's slice over the array of variadic arguments in
`exCallerState`. -/
def exCallerSlice : Slice :=
  { arr := exLogger.1.arrays.length, off := 0, len := 2, cap := 2 }

/-- Example sink whose last accumulated value is a marshaler that returns a
stringer: `New(&kl).WithValues("a", 1).WithValues("b", 2).WithValues("k", M)`;
its `values` has length 6 and capacity 8. -/
def exMarshalSink : State × kitlogger :=
  let r1 := WithValues goGrow exState exRoot [Val.str "a", Val.int 1]
  let r2 := WithValues goGrow r1.1 r1.2 [Val.str "b", Val.int 2]
  WithValues goGrow r2.1 r2.2 [Val.str "k", Val.marshaler (Val.stringer "inner")]

/-- State after a first `Info(0, "m")` on `exMarshalSink`. -/
def exAfterFirstInfo : Option State :=
  Info goGrow defaultConfig exMarshalSink.1 exMarshalSink.2 0 "m" []

/-- State after a second, identical `Info(0, "m")` on `exMarshalSink`. -/
def exAfterSecondInfo : Option State :=
  match exAfterFirstInfo with
  | none => none
  | some st1 => Info goGrow defaultConfig st1 exMarshalSink.2 0 "m" []

/-! ## Heap lemmas -/

theorem array_def (st : State) (id : Nat) : st.array id = (st.arrays[id]?).getD [] := by
  simp [State.array, List.getD_eq_getElem?_getD]

theorem array_store (st : State) (id id' : Nat) (a : List Val) :
    (st.store id a).array id' =
      if id = id' then (if id < st.arrays.length then a else []) else st.array id' := by
  simp only [array_def, State.store, List.getElem?_set]
  by_cases h : id = id'
  · subst h
    by_cases h2 : id < st.arrays.length <;> simp [h2]
  · simp [h]

theorem readSlice_getElem? (st : State) (s : Slice) (j : Nat) :
    (readSlice st s)[j]? = if j < s.len then (st.array s.arr)[s.off + j]? else none := by
  simp only [readSlice, List.getElem?_take, List.getElem?_drop]

theorem readSlice_length (st : State) (s : Slice) (h : SliceOK st s) :
    (readSlice st s).length = s.len := by
  obtain ⟨h1, h2⟩ := h
  simp only [readSlice, List.length_take, List.length_drop]
  omega

theorem writeAt_getElem? (a : List Val) (pos : Nat) (xs : List Val) (j : Nat)
    (h : pos + xs.length ≤ a.length) :
    (writeAt a pos xs)[j]? =
      if j < pos then a[j]? else if j < pos + xs.length then xs[j - pos]? else a[j]? := by
  have hp : (a.take pos).length = pos := by simp; omega
  unfold writeAt
  by_cases h1 : j < pos
  · rw [List.append_assoc, List.getElem?_append_left (by omega)]
    simp [h1, List.getElem?_take]
  · by_cases h2 : j < pos + xs.length
    · rw [List.getElem?_append_left (by simp; omega),
        List.getElem?_append_right (by omega)]
      simp [h1, h2, hp]
    · rw [List.getElem?_append_right (by simp; omega)]
      simp only [h1, h2, if_false, List.length_append, hp, List.getElem?_drop]
      congr 1
      omega

theorem writeAt_length (a : List Val) (pos : Nat) (xs : List Val)
    (h : pos + xs.length ≤ a.length) : (writeAt a pos xs).length = a.length := by
  simp only [writeAt, List.length_append, List.length_take, List.length_drop]
  omega

theorem array_of_not_lt (st : State) (id : Nat) (h : ¬ id < st.arrays.length) :
    st.array id = [] := by
  simp [array_def, List.getElem?_eq_none (Nat.le_of_not_lt h)]

theorem goAppend_array_inplace (g : Nat → Nat → Nat) (st : State) (s : Slice)
    (xs : List Val) (id : Nat) (h : SliceOK st s) (hc : s.len + xs.length ≤ s.cap) :
    (goAppend g st s xs).1.array id =
      if id = s.arr then writeAt (st.array s.arr) (s.off + s.len) xs else st.array id := by
  obtain ⟨h1, h2⟩ := h
  simp only [goAppend, hc, if_true, array_store]
  by_cases hid : s.arr = id
  · subst hid
    by_cases hlt : s.arr < st.arrays.length
    · simp [hlt]
    · have he := array_of_not_lt st s.arr hlt
      rw [he] at h2 ⊢
      simp only [List.length_nil] at h2
      have hx : xs = [] := List.eq_nil_of_length_eq_zero (by omega)
      simp [hlt, hx, writeAt]
  · have hid' : ¬ id = s.arr := fun e => hid e.symm
    simp [hid, hid']

theorem goAppend_array_grow (g : Nat → Nat → Nat) (st : State) (s : Slice)
    (xs : List Val) (id : Nat) (hc : ¬ s.len + xs.length ≤ s.cap) :
    (goAppend g st s xs).1.array id =
      if id = st.arrays.length then
        readSlice st s ++ xs ++ List.replicate
          (max (g s.cap (s.len + xs.length)) (s.len + xs.length) - (s.len + xs.length)) Val.nil
      else st.array id := by
  simp only [goAppend, hc, if_false, array_def]
  by_cases hid : id = st.arrays.length
  · subst hid
    simp
  · simp only [hid, if_false, List.getElem?_append]
    by_cases hlt : id < st.arrays.length
    · simp [hlt]
    · have hne : id - st.arrays.length ≠ 0 := by omega
      obtain ⟨k, hk⟩ := Nat.exists_eq_succ_of_ne_zero hne
      simp [hlt, List.getElem?_eq_none (Nat.le_of_not_lt hlt), hk]

theorem goAppend_loggers (g : Nat → Nat → Nat) (st : State) (s : Slice) (xs : List Val) :
    (goAppend g st s xs).1.loggers = st.loggers := by
  unfold goAppend State.store
  split <;> rfl

theorem goAppend_out (g : Nat → Nat → Nat) (st : State) (s : Slice) (xs : List Val) :
    (goAppend g st s xs).1.out = st.out := by
  unfold goAppend State.store
  split <;> rfl

theorem goAppend_len (g : Nat → Nat → Nat) (st : State) (s : Slice) (xs : List Val) :
    (goAppend g st s xs).2.len = s.len + xs.length := by
  unfold goAppend
  split <;> rfl

/-- After `append`, the result slice holds the old elements followed by the
appended ones. -/
theorem goAppend_read (g : Nat → Nat → Nat) (st : State) (s : Slice) (xs : List Val)
    (h : SliceOK st s) :
    readSlice (goAppend g st s xs).1 (goAppend g st s xs).2 = readSlice st s ++ xs := by
  have hlen := readSlice_length st s h
  obtain ⟨h1, h2⟩ := h
  apply List.ext_getElem?
  intro j
  rw [readSlice_getElem?, goAppend_len]
  by_cases hc : s.len + xs.length ≤ s.cap
  · have harr : (goAppend g st s xs).2.arr = s.arr := by simp [goAppend, hc]
    have hoff : (goAppend g st s xs).2.off = s.off := by simp [goAppend, hc]
    rw [harr, hoff, goAppend_array_inplace g st s xs s.arr ⟨h1, h2⟩ hc, if_pos rfl,
      writeAt_getElem? _ _ _ _ (by omega), List.getElem?_append, hlen, readSlice_getElem?]
    by_cases hj : j < s.len
    · have : s.off + j < s.off + s.len := by omega
      simp [hj, this]
      omega
    · by_cases hj2 : j < s.len + xs.length
      · have e1 : ¬ s.off + j < s.off + s.len := by omega
        have e2 : s.off + j < s.off + s.len + xs.length := by omega
        have e3 : s.off + j - (s.off + s.len) = j - s.len := by omega
        simp [hj, hj2, e1, e2, e3]
      · simp only [hj, hj2, if_false]
        exact (List.getElem?_eq_none (by omega)).symm
  · have harr : (goAppend g st s xs).2.arr = st.arrays.length := by simp [goAppend, hc]
    have hoff : (goAppend g st s xs).2.off = 0 := by simp [goAppend, hc]
    rw [harr, hoff, goAppend_array_grow g st s xs _ hc, if_pos rfl, Nat.zero_add]
    by_cases hj2 : j < s.len + xs.length
    · rw [if_pos hj2, List.getElem?_append_left (by simp [hlen]; omega)]
    · rw [if_neg hj2]
      exact (List.getElem?_eq_none (by simp [hlen]; omega)).symm

/-- The result of `append` is again a slice inside its backing array. -/
theorem goAppend_ok (g : Nat → Nat → Nat) (st : State) (s : Slice) (xs : List Val)
    (h : SliceOK st s) : SliceOK (goAppend g st s xs).1 (goAppend g st s xs).2 := by
  have hlen := readSlice_length st s h
  obtain ⟨h1, h2⟩ := h
  by_cases hc : s.len + xs.length ≤ s.cap
  · have harr : (goAppend g st s xs).2.arr = s.arr := by simp [goAppend, hc]
    have hoff : (goAppend g st s xs).2.off = s.off := by simp [goAppend, hc]
    have hcap : (goAppend g st s xs).2.cap = s.cap := by simp [goAppend, hc]
    unfold SliceOK
    rw [harr, hoff, hcap, goAppend_len, goAppend_array_inplace g st s xs s.arr ⟨h1, h2⟩ hc,
      if_pos rfl, writeAt_length _ _ _ (by omega)]
    exact ⟨hc, h2⟩
  · have harr : (goAppend g st s xs).2.arr = st.arrays.length := by simp [goAppend, hc]
    have hoff : (goAppend g st s xs).2.off = 0 := by simp [goAppend, hc]
    have hcap : (goAppend g st s xs).2.cap =
        max (g s.cap (s.len + xs.length)) (s.len + xs.length) := by simp [goAppend, hc]
    unfold SliceOK
    rw [harr, hoff, hcap, goAppend_len, goAppend_array_grow g st s xs _ hc, if_pos rfl]
    simp only [List.length_append, List.length_replicate, hlen]
    omega

/-- Slices that were inside their backing array before `append` still are. -/
theorem goAppend_frame_ok (g : Nat → Nat → Nat) (st : State) (s t : Slice) (xs : List Val)
    (h : SliceOK st s) (ht : SliceOK st t) : SliceOK (goAppend g st s xs).1 t := by
  obtain ⟨t1, t2⟩ := ht
  refine ⟨t1, ?_⟩
  by_cases hc : s.len + xs.length ≤ s.cap
  · rw [goAppend_array_inplace g st s xs t.arr h hc]
    by_cases hid : t.arr = s.arr
    · rw [if_pos hid, writeAt_length _ _ _ (by have := h.2; omega), ← hid]
      exact t2
    · rw [if_neg hid]
      exact t2
  · rw [goAppend_array_grow g st s xs t.arr hc]
    by_cases hid : t.arr = st.arrays.length
    · have he := array_of_not_lt st t.arr (by omega)
      rw [he] at t2
      simp only [List.length_nil] at t2
      omega
    · rw [if_neg hid]
      exact t2

/-- The elements `append` writes lie after the length of its argument: a
slice that ends before them, starts after the capacity, or lives in another
array reads the same afterwards. -/
theorem goAppend_frame_read (g : Nat → Nat → Nat) (st : State) (s t : Slice)
    (xs : List Val) (h : SliceOK st s) (ht : SliceOK st t)
    (hd : t.arr ≠ s.arr ∨ t.off + t.len ≤ s.off + s.len ∨ s.off + s.cap ≤ t.off) :
    readSlice (goAppend g st s xs).1 t = readSlice st t := by
  apply List.ext_getElem?
  intro j
  rw [readSlice_getElem?, readSlice_getElem?]
  by_cases hj : j < t.len
  · rw [if_pos hj, if_pos hj]
    by_cases hc : s.len + xs.length ≤ s.cap
    · rw [goAppend_array_inplace g st s xs t.arr h hc]
      by_cases hid : t.arr = s.arr
      · rw [if_pos hid, writeAt_getElem? _ _ _ _ (by have := h.2; omega), hid]
        rcases hd with hd | hd | hd
        · exact absurd hid hd
        · rw [if_pos (by omega)]
        · rw [if_neg (by omega), if_neg (by omega)]
      · rw [if_neg hid]
    · rw [goAppend_array_grow g st s xs t.arr hc]
      by_cases hid : t.arr = st.arrays.length
      · have he := array_of_not_lt st t.arr (by omega)
        have t2 := ht.2
        have t1 := ht.1
        rw [he] at t2
        simp only [List.length_nil] at t2
        omega
      · rw [if_neg hid]
  · rw [if_neg hj, if_neg hj]

/-! ## The rendering loop -/

theorem renderPairs_getElem? (xs : List Val) (j : Nat) :
    (renderPairs xs)[j]? = if j % 2 = 1 then (xs[j]?).map renderValue else xs[j]? := by
  induction xs using renderPairs.induct generalizing j with
  | case1 k v rest ih =>
    match j with
    | 0 => simp [renderPairs]
    | 1 => simp [renderPairs]
    | j + 2 =>
      have : (j + 2) % 2 = j % 2 := by omega
      simp [renderPairs, ih, this]
  | case2 xs hx =>
    have hr : renderPairs xs = xs := by
      unfold renderPairs
      split
      · exact absurd rfl (hx _ _ _)
      · rfl
    rw [hr]
    match xs, hx with
    | [], _ => simp
    | [a], _ =>
      match j with
      | 0 => simp
      | j + 1 => simp
    | a :: b :: r, hx => exact absurd rfl (hx _ _ _)

theorem renderPairs_length (xs : List Val) : (renderPairs xs).length = xs.length := by
  induction xs using renderPairs.induct with
  | case1 k v rest ih => simp [renderPairs, ih]
  | case2 xs hx =>
    unfold renderPairs
    split
    · exact absurd rfl (hx _ _ _)
    · rfl

theorem renderAt_spec (st : State) (s : Slice) (i : Nat)
    (hi : s.off + i < (st.array s.arr).length) :
    (renderAt st s i).loggers = st.loggers ∧ (renderAt st s i).out = st.out ∧
    (renderAt st s i).arrays.length = st.arrays.length ∧
    (∀ id, id ≠ s.arr → (renderAt st s i).array id = st.array id) ∧
    ((renderAt st s i).array s.arr).length = (st.array s.arr).length ∧
    (∀ j, ((renderAt st s i).array s.arr)[j]? =
      if j = s.off + i then ((st.array s.arr)[j]?).map renderValue
      else (st.array s.arr)[j]?) := by
  have hlt : s.arr < st.arrays.length := by
    by_contra hc
    rw [array_of_not_lt st s.arr hc] at hi
    simp at hi
  have hget : sliceGet st s i = (st.array s.arr)[s.off + i] := by
    simp [sliceGet, List.getD_eq_getElem?_getD, List.getElem?_eq_getElem hi]
  have hset : ∀ v, renderValue (st.array s.arr)[s.off + i] = v →
      (sliceSet st s i v).loggers = st.loggers ∧ (sliceSet st s i v).out = st.out ∧
      (sliceSet st s i v).arrays.length = st.arrays.length ∧
      (∀ id, id ≠ s.arr → (sliceSet st s i v).array id = st.array id) ∧
      ((sliceSet st s i v).array s.arr).length = (st.array s.arr).length ∧
      (∀ j, ((sliceSet st s i v).array s.arr)[j]? =
        if j = s.off + i then ((st.array s.arr)[j]?).map renderValue
        else (st.array s.arr)[j]?) := by
    intro v hv
    refine ⟨rfl, rfl, by simp [sliceSet, State.store], ?_, ?_, ?_⟩
    · intro id hid
      rw [sliceSet, array_store, if_neg (fun e => hid e.symm)]
    · rw [sliceSet, array_store, if_pos rfl, if_pos hlt, List.length_set]
    · intro j
      rw [sliceSet, array_store, if_pos rfl, if_pos hlt, List.getElem?_set]
      by_cases hj : j = s.off + i
      · subst hj
        simp [hi, List.getElem?_eq_getElem hi, hv]
      · rw [if_neg (fun e => hj e.symm), if_neg hj]
  unfold renderAt
  simp only [hget]
  by_cases hm : implementsMarshaler (st.array s.arr)[s.off + i] = true
  · rw [if_pos hm]
    exact hset _ (by simp [renderValue, hm])
  · by_cases hs : implementsStringer (st.array s.arr)[s.off + i] = true
    · rw [if_neg hm, if_pos hs]
      exact hset _ (by simp [renderValue, hm, hs])
    · rw [if_neg hm, if_neg hs]
      refine ⟨rfl, rfl, rfl, fun _ _ => rfl, rfl, ?_⟩
      intro j
      by_cases hj : j = s.off + i
      · subst hj
        simp [List.getElem?_eq_getElem hi, renderValue, hm, hs]
      · rw [if_neg hj]

/-- The loop of `defaultRender` ends within its fuel, touches only the
elements `i, i+2, ...` below `n` of the slice, and leaves there the rendered
values. -/
theorem defaultRenderLoop_spec (fuel : Nat) (s : Slice) (n : Nat) :
    ∀ (st : State) (i : Nat), s.off + n ≤ (st.array s.arr).length → n ≤ i + 2 * fuel →
    ∃ st1, defaultRenderLoop fuel st s i n = some st1 ∧
      st1.loggers = st.loggers ∧ st1.out = st.out ∧
      st1.arrays.length = st.arrays.length ∧
      (∀ id, id ≠ s.arr → st1.array id = st.array id) ∧
      (st1.array s.arr).length = (st.array s.arr).length ∧
      (∀ j, (st1.array s.arr)[j]? =
        if s.off + i ≤ j ∧ j < s.off + n ∧ (j - (s.off + i)) % 2 = 0 then
          ((st.array s.arr)[j]?).map renderValue
        else (st.array s.arr)[j]?) := by
  induction fuel with
  | zero =>
    intro st i hb hf
    have hi : ¬ i < n := by omega
    refine ⟨st, by simp [defaultRenderLoop, hi], rfl, rfl, rfl, fun _ _ => rfl, rfl, ?_⟩
    intro j
    rw [if_neg (by omega)]
  | succ fuel ih =>
    intro st i hb hf
    by_cases hi : i < n
    · obtain ⟨a1, a2, a3, a4, a5, a6⟩ := renderAt_spec st s i (by omega)
      obtain ⟨st1, b0, b1, b2, b3, b4, b5, b6⟩ :=
        ih (renderAt st s i) (i + 2) (by rw [a5]; exact hb) (by omega)
      refine ⟨st1, by simp [defaultRenderLoop, hi, b0], b1.trans a1, b2.trans a2,
        b3.trans a3, fun id hid => (b4 id hid).trans (a4 id hid), b5.trans a5, ?_⟩
      intro j
      rw [b6 j, a6 j]
      by_cases hj : j = s.off + i
      · subst hj
        rw [if_neg (by omega), if_pos rfl, if_pos ⟨Nat.le_refl _, by omega, by simp⟩]
      · by_cases hc : s.off + (i + 2) ≤ j ∧ j < s.off + n ∧ (j - (s.off + (i + 2))) % 2 = 0
        · rw [if_pos hc, if_neg hj, if_pos ⟨by omega, by omega, by omega⟩]
        · rw [if_neg hc, if_neg hj, if_neg (by omega)]
    · refine ⟨st, by simp [defaultRenderLoop, hi], rfl, rfl, rfl, fun _ _ => rfl, rfl, ?_⟩
      intro j
      rw [if_neg (by omega)]

/-- On a slice inside its backing array `defaultRender` returns the slice it
was given, now holding the rendered sequence; loggers and backend writes are
untouched. -/
theorem defaultRender_spec (st : State) (s : Slice) (h : SliceOK st s) :
    ∃ st1, defaultRender st s = some (st1, s) ∧
      st1.loggers = st.loggers ∧ st1.out = st.out ∧ SliceOK st1 s ∧
      readSlice st1 s = renderPairs (readSlice st s) := by
  obtain ⟨h1, h2⟩ := h
  obtain ⟨st1, b0, b1, b2, _, _, b5, b6⟩ :=
    defaultRenderLoop_spec s.len s s.len st 1 (by omega) (by omega)
  refine ⟨st1, by simp [defaultRender, b0], b1, b2, ⟨h1, by rw [b5]; exact h2⟩, ?_⟩
  apply List.ext_getElem?
  intro j
  rw [readSlice_getElem?, renderPairs_getElem?, readSlice_getElem?, b6]
  by_cases hj : j < s.len
  · simp only [hj, if_true]
    by_cases hodd : j % 2 = 1
    · rw [if_pos ⟨by omega, by omega, by omega⟩, if_pos hodd]
    · rw [if_neg (by omega), if_neg hodd]
  · simp [hj]

theorem defaultRenderOf_eq (xs : List Val) : defaultRenderOf xs = some (renderPairs xs) := by
  have hok : SliceOK { arrays := [xs], loggers := [], out := [] }
      { arr := 0, off := 0, len := xs.length, cap := xs.length } := by
    simp [SliceOK, State.array]
  obtain ⟨st1, b0, _, _, _, b4⟩ := defaultRender_spec _ _ hok
  have hr : readSlice { arrays := [xs], loggers := [], out := [] }
      { arr := 0, off := 0, len := xs.length, cap := xs.length } = xs := by
    simp [readSlice, State.array]
  simp [defaultRenderOf, b0, b4, hr]

theorem Info_spec (g : Nat → Nat → Nat) (cfg : Config) (st : State) (l : kitlogger)
    (level : Int) (msg : String) (kvs : List Val) (lg : Logger)
    (hv : SliceOK st l.values) (hl : st.loggers[l.kl]? = some lg) :
    ∃ st1, Info g cfg st l level msg kvs = some st1 ∧ st1.loggers = st.loggers ∧
      st1.out = st.out ++
        [{ logger := if level > 1 then kitlevelDebug lg else kitlevelInfo lg,
           kvs := renderPairs (readSlice st l.values ++ kvs ++ [Val.str "msg", Val.str msg]
             ++ nameTail cfg l) }] := by
  have ok1 := goAppend_ok g st l.values kvs hv
  have rd1 := goAppend_read g st l.values kvs hv
  have lg1 := goAppend_loggers g st l.values kvs
  have out1 := goAppend_out g st l.values kvs
  simp only [Info]
  generalize goAppend g st l.values kvs = r1 at ok1 rd1 lg1 out1 ⊢
  have ok2 := goAppend_ok g r1.1 r1.2 [Val.str "msg", Val.str msg] ok1
  have rd2 := goAppend_read g r1.1 r1.2 [Val.str "msg", Val.str msg] ok1
  have lg2 := goAppend_loggers g r1.1 r1.2 [Val.str "msg", Val.str msg]
  have out2 := goAppend_out g r1.1 r1.2 [Val.str "msg", Val.str msg]
  have hr3 : ∃ r3 : State × Slice,
      (if l.name ≠ "" then
        goAppend g (goAppend g r1.1 r1.2 [Val.str "msg", Val.str msg]).1
          (goAppend g r1.1 r1.2 [Val.str "msg", Val.str msg]).2
          [Val.str cfg.NameFieldKey, Val.str l.name]
      else goAppend g r1.1 r1.2 [Val.str "msg", Val.str msg]) = r3 ∧
      SliceOK r3.1 r3.2 ∧ r3.1.loggers = st.loggers ∧ r3.1.out = st.out ∧
      readSlice r3.1 r3.2 = readSlice st l.values ++ kvs ++ [Val.str "msg", Val.str msg]
        ++ nameTail cfg l := by
    by_cases hn : l.name ≠ ""
    · refine ⟨_, if_pos hn, goAppend_ok g _ _ _ ok2, ?_, ?_, ?_⟩
      · rw [goAppend_loggers, lg2, lg1]
      · rw [goAppend_out, out2, out1]
      · rw [goAppend_read g _ _ _ ok2, rd2, rd1, nameTail, if_pos hn]
    · refine ⟨_, if_neg hn, ok2, lg2.trans lg1, out2.trans out1, ?_⟩
      rw [rd2, rd1, nameTail, if_neg hn, List.append_nil]
  obtain ⟨r3, e3, ok3, lg3, out3, rd3⟩ := hr3
  obtain ⟨st4, e4, lg4, out4, _, rd4⟩ := defaultRender_spec r3.1 r3.2 ok3
  have hl4 : st4.loggers[l.kl]? = some lg := by rw [lg4, lg3]; exact hl
  by_cases hlev : level > 1
  · refine ⟨kitlogLog st4 (kitlevelDebug lg) r3.2, ?_, ?_, ?_⟩
    · simp only [e3, e4, hl4, if_pos hlev]
    · simp only [kitlogLog, lg4, lg3]
    · simp only [kitlogLog, out4, out3, rd4, rd3, if_pos hlev]
  · refine ⟨kitlogLog st4 (kitlevelInfo lg) r3.2, ?_, ?_, ?_⟩
    · simp only [e3, e4, hl4, if_neg hlev]
    · simp only [kitlogLog, lg4, lg3]
    · simp only [kitlogLog, out4, out3, rd4, rd3, if_neg hlev]

theorem Error_spec (g : Nat → Nat → Nat) (cfg : Config) (st : State) (l : kitlogger)
    (err : Val) (msg : String) (kvs : List Val) (lg : Logger)
    (hv : SliceOK st l.values) (hl : st.loggers[l.kl]? = some lg) :
    ∃ st1, Error g cfg st l err msg kvs = some st1 ∧ st1.loggers = st.loggers ∧
      st1.out = st.out ++
        [{ logger := kitlevelError lg,
           kvs := renderPairs (readSlice st l.values ++ kvs ++
             [Val.str "msg", Val.str msg, Val.str cfg.ErrorFieldKey, err]
             ++ nameTail cfg l) }] := by
  have ok1 := goAppend_ok g st l.values kvs hv
  have rd1 := goAppend_read g st l.values kvs hv
  have lg1 := goAppend_loggers g st l.values kvs
  have out1 := goAppend_out g st l.values kvs
  simp only [Error]
  generalize goAppend g st l.values kvs = r1 at ok1 rd1 lg1 out1 ⊢
  generalize hxs : [Val.str "msg", Val.str msg, Val.str cfg.ErrorFieldKey, err] = xs
  have ok2 := goAppend_ok g r1.1 r1.2 xs ok1
  have rd2 := goAppend_read g r1.1 r1.2 xs ok1
  have lg2 := goAppend_loggers g r1.1 r1.2 xs
  have out2 := goAppend_out g r1.1 r1.2 xs
  have hr3 : ∃ r3 : State × Slice,
      (if l.name ≠ "" then
        goAppend g (goAppend g r1.1 r1.2 xs).1 (goAppend g r1.1 r1.2 xs).2
          [Val.str cfg.NameFieldKey, Val.str l.name]
      else goAppend g r1.1 r1.2 xs) = r3 ∧
      SliceOK r3.1 r3.2 ∧ r3.1.loggers = st.loggers ∧ r3.1.out = st.out ∧
      readSlice r3.1 r3.2 = readSlice st l.values ++ kvs ++ xs ++ nameTail cfg l := by
    by_cases hn : l.name ≠ ""
    · refine ⟨_, if_pos hn, goAppend_ok g _ _ _ ok2, ?_, ?_, ?_⟩
      · rw [goAppend_loggers, lg2, lg1]
      · rw [goAppend_out, out2, out1]
      · rw [goAppend_read g _ _ _ ok2, rd2, rd1, nameTail, if_pos hn]
    · refine ⟨_, if_neg hn, ok2, lg2.trans lg1, out2.trans out1, ?_⟩
      rw [rd2, rd1, nameTail, if_neg hn, List.append_nil]
  obtain ⟨r3, e3, ok3, lg3, out3, rd3⟩ := hr3
  obtain ⟨st4, e4, lg4, out4, _, rd4⟩ := defaultRender_spec r3.1 r3.2 ok3
  have hl4 : st4.loggers[l.kl]? = some lg := by rw [lg4, lg3]; exact hl
  refine ⟨kitlogLog st4 (kitlevelError lg) r3.2, ?_, ?_, ?_⟩
  · simp only [e3, e4, hl4]
  · simp only [kitlogLog, lg4, lg3]
  · simp only [kitlogLog, out4, out3, rd4, rd3]

theorem exists_logger (st : State) (k : Nat) (h : k < st.loggers.length) :
    ∃ lg, st.loggers[k]? = some lg :=
  ⟨st.loggers[k], List.getElem?_eq_getElem h⟩

theorem nameTail_eq (cfg : Config) (l : kitlogger) :
    nameTail cfg l =
      if l.name = "" then [] else [Val.str cfg.NameFieldKey, Val.str l.name] := by
  unfold nameTail
  by_cases h : l.name = "" <;> simp [h]

theorem severity_withLevel (lg : Logger) (sev : Severity) (kvs : List Val) :
    Record.severity { logger := withLevel lg sev, kvs := kvs } = some sev := by
  simp [Record.severity, withLevel, levelKey]

/-! ## Terminal operations -/

/-- Claim C1: on every sink whose `kl` points to a logger and whose `values`
is a slice of the heap, `Info(level, msg, kvs...)` returns, makes exactly one
backend write, and the sequence written is `defaultRender` of
`values ++ kvs ++ ["msg", msg] ++ tail`, the tail being the name pair when
the name is non-empty and nothing otherwise. -/
theorem Info_writes_rendered_sequence (grow : Nat → Nat → Nat) (cfg : Config) (st : State)
    (l : kitlogger) (level : Int) (msg : String) (kvs : List Val)
    (hv : SliceOK st l.values) (hl : l.kl < st.loggers.length) :
    ∃ st1 r, Info grow cfg st l level msg kvs = some st1 ∧ st1.out = st.out ++ [r] ∧
      defaultRenderOf (readSlice st l.values ++ kvs ++ [Val.str "msg", Val.str msg] ++
        (if l.name = "" then [] else [Val.str cfg.NameFieldKey, Val.str l.name]))
        = some r.kvs := by
  obtain ⟨lg, hlg⟩ := exists_logger st l.kl hl
  obtain ⟨st1, h1, _, h3⟩ := Info_spec grow cfg st l level msg kvs lg hv hlg
  refine ⟨st1, _, h1, h3, ?_⟩
  rw [defaultRenderOf_eq, nameTail_eq]

/-- Claim C1, the example of the test:
`New(&kl).WithName("MyName").WithValues("module", "example")` then
`Info(0, "hello", "val1", 1)` writes
`module, example, val1, 1, msg, hello, logger, MyName`. -/
theorem Info_writes_rendered_sequence_witness :
    SliceOK exLogger.1 exLogger.2.values ∧ exLogger.2.kl < exLogger.1.loggers.length ∧
    ∃ st1 r, Info goGrow defaultConfig exLogger.1 exLogger.2 0 "hello"
        [Val.str "val1", Val.int 1] = some st1 ∧
      st1.out = exLogger.1.out ++ [r] ∧
      r.kvs = [Val.str "module", Val.str "example", Val.str "val1", Val.int 1,
        Val.str "msg", Val.str "hello", Val.str "logger", Val.str "MyName"] := by
  refine ⟨by decide, by decide, ?_⟩
  obtain ⟨st1, r, h1, h2, h3⟩ :=
    Info_writes_rendered_sequence goGrow defaultConfig exLogger.1 exLogger.2 0 "hello"
      [Val.str "val1", Val.int 1] (by decide) (by decide)
  refine ⟨st1, r, h1, h2, ?_⟩
  have h4 : defaultRenderOf (readSlice exLogger.1 exLogger.2.values ++
      [Val.str "val1", Val.int 1] ++ [Val.str "msg", Val.str "hello"] ++
      (if exLogger.2.name = "" then []
        else [Val.str defaultConfig.NameFieldKey, Val.str exLogger.2.name])) =
      some [Val.str "module", Val.str "example", Val.str "val1", Val.int 1,
        Val.str "msg", Val.str "hello", Val.str "logger", Val.str "MyName"] := by decide
  rw [h4] at h3
  exact (Option.some.inj h3).symm

/-- Claim C2: on every sink whose `kl` points to a logger and whose `values`
is a slice of the heap, `Error(err, msg, kvs...)` returns, makes exactly one
backend write, at severity error, and the sequence written is `defaultRender`
of `values ++ kvs ++ ["msg", msg, ErrorFieldKey, err] ++ tail`: the error
pair stands before the optional name pair. -/
theorem Error_writes_rendered_sequence (grow : Nat → Nat → Nat) (cfg : Config) (st : State)
    (l : kitlogger) (err : Val) (msg : String) (kvs : List Val)
    (hv : SliceOK st l.values) (hl : l.kl < st.loggers.length) :
    ∃ st1 r, Error grow cfg st l err msg kvs = some st1 ∧ st1.out = st.out ++ [r] ∧
      r.severity = some Severity.error ∧
      defaultRenderOf (readSlice st l.values ++ kvs ++
        [Val.str "msg", Val.str msg, Val.str cfg.ErrorFieldKey, err] ++
        (if l.name = "" then [] else [Val.str cfg.NameFieldKey, Val.str l.name]))
        = some r.kvs := by
  obtain ⟨lg, hlg⟩ := exists_logger st l.kl hl
  obtain ⟨st1, h1, _, h3⟩ := Error_spec grow cfg st l err msg kvs lg hv hlg
  refine ⟨st1, _, h1, h3, ?_, ?_⟩
  · exact severity_withLevel lg Severity.error _
  · rw [defaultRenderOf_eq, nameTail_eq]

/-- Claim C2, the example of the test: `Error(E, "goodbye", "code", -1)` on
the named logger with one accumulated pair writes, at severity error,
`module, example, code, -1, msg, goodbye, error, E, logger, MyName`. -/
theorem Error_writes_rendered_sequence_witness :
    SliceOK exLogger.1 exLogger.2.values ∧ exLogger.2.kl < exLogger.1.loggers.length ∧
    ∃ st1 r, Error goGrow defaultConfig exLogger.1 exLogger.2 (Val.err "an error occurred")
        "goodbye" [Val.str "code", Val.int (-1)] = some st1 ∧
      st1.out = exLogger.1.out ++ [r] ∧ r.severity = some Severity.error ∧
      r.kvs = [Val.str "module", Val.str "example", Val.str "code", Val.int (-1),
        Val.str "msg", Val.str "goodbye", Val.str "error", Val.err "an error occurred",
        Val.str "logger", Val.str "MyName"] := by
  refine ⟨by decide, by decide, ?_⟩
  obtain ⟨st1, r, h1, h2, h3, h4⟩ :=
    Error_writes_rendered_sequence goGrow defaultConfig exLogger.1 exLogger.2
      (Val.err "an error occurred") "goodbye" [Val.str "code", Val.int (-1)]
      (by decide) (by decide)
  refine ⟨st1, r, h1, h2, h3, ?_⟩
  have h5 : defaultRenderOf (readSlice exLogger.1 exLogger.2.values ++
      [Val.str "code", Val.int (-1)] ++
      [Val.str "msg", Val.str "goodbye", Val.str defaultConfig.ErrorFieldKey,
        Val.err "an error occurred"] ++
      (if exLogger.2.name = "" then []
        else [Val.str defaultConfig.NameFieldKey, Val.str exLogger.2.name])) =
      some [Val.str "module", Val.str "example", Val.str "code", Val.int (-1),
        Val.str "msg", Val.str "goodbye", Val.str "error", Val.err "an error occurred",
        Val.str "logger", Val.str "MyName"] := by decide
  rw [h5] at h4
  exact (Option.some.inj h4).symm

/-- Claim C3: for every integer level, negative ones included, the record
`Info(level, ...)` writes is at severity debug exactly when `level > 1` and
at severity info exactly when `level ≤ 1`; it is never at warn or error. -/
theorem Info_severity (grow : Nat → Nat → Nat) (cfg : Config) (st : State)
    (l : kitlogger) (level : Int) (msg : String) (kvs : List Val)
    (hv : SliceOK st l.values) (hl : l.kl < st.loggers.length) :
    ∃ st1 r, Info grow cfg st l level msg kvs = some st1 ∧ st1.out = st.out ++ [r] ∧
      (r.severity = some Severity.debug ↔ level > 1) ∧
      (r.severity = some Severity.info ↔ level ≤ 1) ∧
      r.severity ≠ some Severity.warn ∧ r.severity ≠ some Severity.error := by
  obtain ⟨lg, hlg⟩ := exists_logger st l.kl hl
  obtain ⟨st1, h1, _, h3⟩ := Info_spec grow cfg st l level msg kvs lg hv hlg
  refine ⟨st1, _, h1, h3, ?_⟩
  by_cases hlev : level > 1
  · have hnot : ¬ level ≤ 1 := by omega
    simp only [if_pos hlev, kitlevelDebug, severity_withLevel]
    simp [hlev, hnot]
  · have hle : level ≤ 1 := by omega
    simp only [if_neg hlev, kitlevelInfo, severity_withLevel]
    simp [hlev, hle]

/-- Claim C3 at levels 0, 1, 2 and -3 on the example logger: info, info,
debug, info. -/
theorem Info_severity_witness :
    SliceOK exLogger.1 exLogger.2.values ∧ exLogger.2.kl < exLogger.1.loggers.length ∧
    (∃ st1 r, Info goGrow defaultConfig exLogger.1 exLogger.2 2 "m" [] = some st1 ∧
      st1.out = exLogger.1.out ++ [r] ∧
      (r.severity = some Severity.debug ↔ (2 : Int) > 1) ∧
      (r.severity = some Severity.info ↔ (2 : Int) ≤ 1) ∧
      r.severity ≠ some Severity.warn ∧ r.severity ≠ some Severity.error) ∧
    (Info goGrow defaultConfig exLogger.1 exLogger.2 0 "m" []).map
      (fun s => s.out.map Record.severity) = some [some Severity.info] ∧
    (Info goGrow defaultConfig exLogger.1 exLogger.2 1 "m" []).map
      (fun s => s.out.map Record.severity) = some [some Severity.info] ∧
    (Info goGrow defaultConfig exLogger.1 exLogger.2 2 "m" []).map
      (fun s => s.out.map Record.severity) = some [some Severity.debug] ∧
    (Info goGrow defaultConfig exLogger.1 exLogger.2 (-3) "m" []).map
      (fun s => s.out.map Record.severity) = some [some Severity.info] :=
  ⟨by decide, by decide,
   Info_severity goGrow defaultConfig exLogger.1 exLogger.2 2 "m" [] (by decide) (by decide),
   by decide, by decide, by decide, by decide⟩

/-! ## Derivations -/

/-- Claim C4, evaluated: with the base depth 5 that `Init` stores for
`CallDepth = 1`, `WithCallDepth(1).WithCallDepth(2)` binds caller valuers of
depth 6 and then 7, so the deciding one has depth 7, while `WithCallDepth(3)`
binds one of depth 8: the stored depth is not advanced by `WithCallDepth`,
and two successive offsets do not add up. -/
theorem WithCallDepth_successive_depths :
    exRoot.depth = 5 ∧
    callerDepthOf defaultConfig exDepthTwice = some 7 ∧
    callerDepthOf defaultConfig exDepthOnce = some 8 ∧
    callerDepthOf defaultConfig exDepthTwice ≠ callerDepthOf defaultConfig exDepthOnce := by
  decide

theorem WithValues_view (g : Nat → Nat → Nat) (st : State) (a : kitlogger)
    (kvs : List Val) (hv : SliceOK st a.values) :
    (WithValues g st a kvs).1.loggers = st.loggers ∧
    (WithValues g st a kvs).1.out = st.out ∧
    SliceOK (WithValues g st a kvs).1 a.values ∧
    readSlice (WithValues g st a kvs).1 a.values = readSlice st a.values :=
  ⟨goAppend_loggers g st a.values kvs, goAppend_out g st a.values kvs,
   goAppend_frame_ok g st a.values a.values kvs hv hv,
   goAppend_frame_read g st a.values a.values kvs hv hv (Or.inr (Or.inl (Nat.le_refl _)))⟩

theorem WithValues_values (g : Nat → Nat → Nat) (st : State) (a : kitlogger)
    (kvs : List Val) (hv : SliceOK st a.values) :
    SliceOK (WithValues g st a kvs).1 (WithValues g st a kvs).2.values ∧
    readSlice (WithValues g st a kvs).1 (WithValues g st a kvs).2.values =
      readSlice st a.values ++ kvs ∧
    (WithValues g st a kvs).2.name = a.name ∧ (WithValues g st a kvs).2.kl = a.kl ∧
    (WithValues g st a kvs).2.depth = a.depth :=
  ⟨goAppend_ok g st a.values kvs hv, goAppend_read g st a.values kvs hv, rfl, rfl, rfl⟩

/-- Two states in which the sink sees the same logger and the same
accumulated values: `Info` and `Error` write the same record in both. -/
theorem same_view_same_record (g : Nat → Nat → Nat) (cfg : Config) (st st1 : State)
    (a : kitlogger) (lg : Logger)
    (hl : st.loggers[a.kl]? = some lg) (hl1 : st1.loggers[a.kl]? = some lg)
    (hv : SliceOK st a.values) (hv1 : SliceOK st1 a.values)
    (hr : readSlice st1 a.values = readSlice st a.values) :
    (∀ (level : Int) (msg : String) (kvs : List Val), ∃ s2 s3 r,
      Info g cfg st a level msg kvs = some s2 ∧ s2.out = st.out ++ [r] ∧
      Info g cfg st1 a level msg kvs = some s3 ∧ s3.out = st1.out ++ [r]) ∧
    (∀ (err : Val) (msg : String) (kvs : List Val), ∃ s2 s3 r,
      Error g cfg st a err msg kvs = some s2 ∧ s2.out = st.out ++ [r] ∧
      Error g cfg st1 a err msg kvs = some s3 ∧ s3.out = st1.out ++ [r]) := by
  constructor
  · intro level msg kvs
    obtain ⟨s2, e2, _, o2⟩ := Info_spec g cfg st a level msg kvs lg hv hl
    obtain ⟨s3, e3, _, o3⟩ := Info_spec g cfg st1 a level msg kvs lg hv1 hl1
    rw [hr] at o3
    exact ⟨s2, s3, _, e2, o2, e3, o3⟩
  · intro err msg kvs
    obtain ⟨s2, e2, _, o2⟩ := Error_spec g cfg st a err msg kvs lg hv hl
    obtain ⟨s3, e3, _, o3⟩ := Error_spec g cfg st1 a err msg kvs lg hv1 hl1
    rw [hr] at o3
    exact ⟨s2, s3, _, e2, o2, e3, o3⟩

/-- Claim C5: for every sink `a` (its `kl` pointing to a logger, its `values`
a slice of the heap) and every derivation `op` among `WithName`, `WithValues`
and `WithCallDepth`, the derivation returns, nothing is written, and in the
state after it `a` still points to the same logger and holds the same
accumulated values (name and depth are fields of the value `a` itself); every
`Info` or `Error` call on `a` writes the same record after the derivation as
before it. -/
theorem derivation_leaves_receiver_unchanged (grow : Nat → Nat → Nat) (cfg : Config)
    (st : State) (a : kitlogger) (op : Derivation)
    (hv : SliceOK st a.values) (hl : a.kl < st.loggers.length) :
    ∃ st1 b, derive grow cfg st a op = some (st1, b) ∧
      st1.loggers[a.kl]? = st.loggers[a.kl]? ∧
      readSlice st1 a.values = readSlice st a.values ∧ st1.out = st.out ∧
      (∀ (level : Int) (msg : String) (kvs : List Val), ∃ s2 s3 r,
        Info grow cfg st a level msg kvs = some s2 ∧ s2.out = st.out ++ [r] ∧
        Info grow cfg st1 a level msg kvs = some s3 ∧ s3.out = st1.out ++ [r]) ∧
      (∀ (err : Val) (msg : String) (kvs : List Val), ∃ s2 s3 r,
        Error grow cfg st a err msg kvs = some s2 ∧ s2.out = st.out ++ [r] ∧
        Error grow cfg st1 a err msg kvs = some s3 ∧ s3.out = st1.out ++ [r]) := by
  obtain ⟨lg, hlg⟩ := exists_logger st a.kl hl
  cases op with
  | withName segment =>
    obtain ⟨hi, he⟩ := same_view_same_record grow cfg st st a lg hlg hlg hv hv rfl
    exact ⟨st, WithName cfg a segment, rfl, rfl, rfl, rfl, hi, he⟩
  | withValues keysAndValues =>
    obtain ⟨w1, w2, w3, w4⟩ := WithValues_view grow st a keysAndValues hv
    obtain ⟨hi, he⟩ := same_view_same_record grow cfg st _ a lg hlg (by rw [w1]; exact hlg)
      hv w3 w4
    exact ⟨(WithValues grow st a keysAndValues).1, (WithValues grow st a keysAndValues).2,
      rfl, congrArg (fun x => x[a.kl]?) w1, w4, w2, hi, he⟩
  | withCallDepth depth =>
    have hl1 : (st.loggers ++ [kitlogWith lg
        [Val.str cfg.CallerFieldKey, kitlogCaller (wrapInt (a.depth + depth))]])[a.kl]? =
        st.loggers[a.kl]? := List.getElem?_append_left hl
    obtain ⟨hi, he⟩ := same_view_same_record grow cfg st
      { st with loggers := st.loggers ++ [kitlogWith lg
        [Val.str cfg.CallerFieldKey, kitlogCaller (wrapInt (a.depth + depth))]] }
      a lg hlg (by rw [hl1]; exact hlg) hv hv rfl
    refine ⟨{ st with loggers := st.loggers ++ [kitlogWith lg
        [Val.str cfg.CallerFieldKey, kitlogCaller (wrapInt (a.depth + depth))]] },
      { a with kl := st.loggers.length }, ?_, hl1, rfl, rfl, hi, he⟩
    simp only [derive, WithCallDepth, hlg]

/-- Claim C5 on the example logger with `WithValues("k", 1)`. -/
theorem derivation_leaves_receiver_unchanged_witness :
    SliceOK exLogger.1 exLogger.2.values ∧ exLogger.2.kl < exLogger.1.loggers.length ∧
    ∃ st1 b, derive goGrow defaultConfig exLogger.1 exLogger.2
        (Derivation.withValues [Val.str "k", Val.int 1]) = some (st1, b) ∧
      st1.loggers[exLogger.2.kl]? = exLogger.1.loggers[exLogger.2.kl]? ∧
      readSlice st1 exLogger.2.values = readSlice exLogger.1 exLogger.2.values ∧
      st1.out = exLogger.1.out ∧
      (∀ (level : Int) (msg : String) (kvs : List Val), ∃ s2 s3 r,
        Info goGrow defaultConfig exLogger.1 exLogger.2 level msg kvs = some s2 ∧
        s2.out = exLogger.1.out ++ [r] ∧
        Info goGrow defaultConfig st1 exLogger.2 level msg kvs = some s3 ∧
        s3.out = st1.out ++ [r]) ∧
      (∀ (err : Val) (msg : String) (kvs : List Val), ∃ s2 s3 r,
        Error goGrow defaultConfig exLogger.1 exLogger.2 err msg kvs = some s2 ∧
        s2.out = exLogger.1.out ++ [r] ∧
        Error goGrow defaultConfig st1 exLogger.2 err msg kvs = some s3 ∧
        s3.out = st1.out ++ [r]) :=
  ⟨by decide, by decide,
   derivation_leaves_receiver_unchanged goGrow defaultConfig exLogger.1 exLogger.2
     (Derivation.withValues [Val.str "k", Val.int 1]) (by decide) (by decide)⟩

/-- Claim C6, evaluated: the parent `p` has six accumulated values in an
array of capacity 8.  `c := p.WithValues("x", 1)` reads `..., x, 1` when it is
derived; after `d := p.WithValues("y", 2)` the same `c` reads `..., y, 2`,
because the two appends wrote the same two elements of the parent's array,
and `c.Info(0, "m")` writes the pair of `d`. -/
theorem WithValues_sibling_overwrites :
    exParent.2.values.len = 6 ∧ exParent.2.values.cap = 8 ∧
    readSlice exChildC.1 exChildC.2.values =
      [Val.str "a", Val.int 1, Val.str "b", Val.int 2, Val.str "c", Val.int 3,
       Val.str "x", Val.int 1] ∧
    readSlice exChildD.1 exChildC.2.values =
      [Val.str "a", Val.int 1, Val.str "b", Val.int 2, Val.str "c", Val.int 3,
       Val.str "y", Val.int 2] ∧
    (Info goGrow defaultConfig exChildD.1 exChildC.2 0 "m" []).map written =
      some [[Val.str "a", Val.int 1, Val.str "b", Val.int 2, Val.str "c", Val.int 3,
        Val.str "y", Val.int 2, Val.str "msg", Val.str "m"]] := by
  decide

/-! ## Rendering -/

/-- Claim C7: on every slice of the heap `defaultRender` returns the slice it
was given, of the same length, in which every element at an even index is
the one it was and every element `v` at an odd index is `v.MarshalLog()` when
`v` implements `logr.Marshaler`, otherwise `v.String()` when `v` implements
`fmt.Stringer`, otherwise `v`; the result of the method is stored as it is. -/
theorem defaultRender_matches_reference (st : State) (s : Slice) (h : SliceOK st s) :
    ∃ st1, defaultRender st s = some (st1, s) ∧
      (readSlice st1 s).length = (readSlice st s).length ∧
      ∀ i, (readSlice st1 s)[i]? =
        if i % 2 = 0 then (readSlice st s)[i]?
        else ((readSlice st s)[i]?).map
          (fun v => if implementsMarshaler v then MarshalLog v
            else if implementsStringer v then Val.str (StringOf v) else v) := by
  obtain ⟨st1, h1, _, _, _, h5⟩ := defaultRender_spec st s h
  refine ⟨st1, h1, by rw [h5, renderPairs_length], ?_⟩
  intro i
  rw [h5, renderPairs_getElem?]
  by_cases hi : i % 2 = 0
  · rw [if_neg (by omega), if_pos hi]
  · rw [if_pos (by omega), if_neg hi]
    rfl

/-- Claim C7 on an example: the value with both methods is replaced by its
`MarshalLog` result, the stringer by its string, the marshaler by the
stringer it returns (not rendered again); keys, the stringer in a key slot
and the trailing key are kept. -/
theorem defaultRender_matches_reference_witness :
    SliceOK exRenderState exRenderSlice ∧
    (∃ st1, defaultRender exRenderState exRenderSlice = some (st1, exRenderSlice) ∧
      (readSlice st1 exRenderSlice).length = (readSlice exRenderState exRenderSlice).length ∧
      ∀ i, (readSlice st1 exRenderSlice)[i]? =
        if i % 2 = 0 then (readSlice exRenderState exRenderSlice)[i]?
        else ((readSlice exRenderState exRenderSlice)[i]?).map
          (fun v => if implementsMarshaler v then MarshalLog v
            else if implementsStringer v then Val.str (StringOf v) else v)) ∧
    (defaultRender exRenderState exRenderSlice).map (fun r => readSlice r.1 r.2) =
      some [Val.str "k1", Val.int 7, Val.stringer "key", Val.str "s",
        Val.str "k3", Val.stringer "inner", Val.str "k4", Val.int 4,
        Val.stringer "last"] :=
  ⟨by decide, defaultRender_matches_reference exRenderState exRenderSlice (by decide),
   by decide⟩

/-! ## Names and values -/

/-- Claim C8 as stated fails for an empty first segment: on a sink without
name, `WithName("").WithName("Y")` has name `"Y"`, not `"" ++ "/" ++ "Y"`. -/
theorem WithName_empty_first_segment :
    (newKitLogger 0).name = "" ∧
    (WithName defaultConfig (WithName defaultConfig (newKitLogger 0) "") "Y").name = "Y" ∧
    (WithName defaultConfig (WithName defaultConfig (newKitLogger 0) "") "Y").name ≠
      "" ++ defaultConfig.NameSeparator ++ "Y" := by
  decide

/-- Claim C8, amended: on a sink without name, `WithName(x)` has name `x`;
`WithName(x).WithName(y)` has name `x ++ NameSeparator ++ y` when `x` is
non-empty (`y` may be empty), and name `y` when `x` is empty. -/
theorem WithName_joins_names (cfg : Config) (a : kitlogger) (x y : String)
    (h : a.name = "") :
    (WithName cfg a x).name = x ∧
    (x ≠ "" → (WithName cfg (WithName cfg a x) y).name = x ++ cfg.NameSeparator ++ y) ∧
    (x = "" → (WithName cfg (WithName cfg a x) y).name = y) := by
  have h1 : (WithName cfg a x).name = x := by simp [WithName, h]
  refine ⟨h1, ?_, ?_⟩
  · intro hx
    have hne : (WithName cfg a x).name ≠ "" := by rw [h1]; exact hx
    rw [WithName, if_pos hne, h1, String.append_assoc]
  · intro hx
    have he : ¬ (WithName cfg a x).name ≠ "" := by rw [h1]; simp [hx]
    rw [WithName, if_neg he]

/-- Claim C8, amended, with the default separator:
`WithName("X").WithName("Y")` gives `"X/Y"`, and an empty second segment is
still joined, `"X/"`. -/
theorem WithName_joins_names_witness :
    (newKitLogger 0).name = "" ∧
    ((WithName defaultConfig (newKitLogger 0) "X").name = "X" ∧
     ("X" ≠ "" → (WithName defaultConfig (WithName defaultConfig (newKitLogger 0) "X") "Y").name
        = "X" ++ defaultConfig.NameSeparator ++ "Y") ∧
     ("X" = "" → (WithName defaultConfig (WithName defaultConfig (newKitLogger 0) "X") "Y").name
        = "Y")) ∧
    (WithName defaultConfig (WithName defaultConfig (newKitLogger 0) "X") "Y").name = "X/Y" ∧
    (WithName defaultConfig (WithName defaultConfig (newKitLogger 0) "X") "").name = "X/" :=
  ⟨by decide, WithName_joins_names defaultConfig (newKitLogger 0) "X" "Y" (by decide),
   by decide, by decide⟩

theorem renderPairs_strings (k1 v1 k2 v2 k3 v3 : String) :
    renderPairs [Val.str k1, Val.str v1, Val.str k2, Val.str v2, Val.str k3, Val.str v3] =
      [Val.str k1, Val.str v1, Val.str k2, Val.str v2, Val.str k3, Val.str v3] := by
  simp [renderPairs, renderValue, implementsMarshaler, implementsStringer]

/-- Claim C9: `WithValues` appends in call order.  For every sink `a` whose
`values` is a slice of the heap and all lists `x`, `y`,
`a.WithValues(x).WithValues(y)` holds `a.values ++ x ++ y`, and so does
`a.WithValues(x ++ y)`; on a sink without values and name,
`WithValues(k1, v1).WithValues(k2, v2).Info(0, m)` writes
`k1, v1, k2, v2, "msg", m`. -/
theorem WithValues_appends_in_call_order (grow : Nat → Nat → Nat) (cfg : Config)
    (st : State) (a : kitlogger) (x y : List Val) (hv : SliceOK st a.values) :
    readSlice (WithValues grow (WithValues grow st a x).1 (WithValues grow st a x).2 y).1
        (WithValues grow (WithValues grow st a x).1 (WithValues grow st a x).2 y).2.values
      = readSlice st a.values ++ x ++ y ∧
    readSlice (WithValues grow st a (x ++ y)).1 (WithValues grow st a (x ++ y)).2.values
      = readSlice st a.values ++ x ++ y ∧
    (a.name = "" → readSlice st a.values = [] → a.kl < st.loggers.length →
      ∀ k1 v1 k2 v2 m : String, ∃ st3 r,
        Info grow cfg
          (WithValues grow (WithValues grow st a [Val.str k1, Val.str v1]).1
            (WithValues grow st a [Val.str k1, Val.str v1]).2 [Val.str k2, Val.str v2]).1
          (WithValues grow (WithValues grow st a [Val.str k1, Val.str v1]).1
            (WithValues grow st a [Val.str k1, Val.str v1]).2 [Val.str k2, Val.str v2]).2
          0 m [] = some st3 ∧
        st3.out = st.out ++ [r] ∧
        r.kvs = [Val.str k1, Val.str v1, Val.str k2, Val.str v2, Val.str "msg", Val.str m]) := by
  have chain : ∀ u w : List Val,
      SliceOK (WithValues grow (WithValues grow st a u).1 (WithValues grow st a u).2 w).1
        (WithValues grow (WithValues grow st a u).1 (WithValues grow st a u).2 w).2.values ∧
      readSlice (WithValues grow (WithValues grow st a u).1 (WithValues grow st a u).2 w).1
        (WithValues grow (WithValues grow st a u).1 (WithValues grow st a u).2 w).2.values
        = readSlice st a.values ++ u ++ w := by
    intro u w
    obtain ⟨c1, c2, _, _, _⟩ := WithValues_values grow st a u hv
    obtain ⟨d1, d2, _, _, _⟩ :=
      WithValues_values grow (WithValues grow st a u).1 (WithValues grow st a u).2 w c1
    exact ⟨d1, by rw [d2, c2]⟩
  refine ⟨(chain x y).2, ?_, ?_⟩
  · rw [(WithValues_values grow st a (x ++ y) hv).2.1, List.append_assoc]
  · intro hn he hl k1 v1 k2 v2 m
    obtain ⟨d1, d2⟩ := chain [Val.str k1, Val.str v1] [Val.str k2, Val.str v2]
    obtain ⟨lg, hlg⟩ := exists_logger st a.kl hl
    have hlog : (WithValues grow (WithValues grow st a [Val.str k1, Val.str v1]).1
        (WithValues grow st a [Val.str k1, Val.str v1]).2 [Val.str k2, Val.str v2]).1.loggers
        = st.loggers := by
      simp only [WithValues, goAppend_loggers]
    have hout : (WithValues grow (WithValues grow st a [Val.str k1, Val.str v1]).1
        (WithValues grow st a [Val.str k1, Val.str v1]).2 [Val.str k2, Val.str v2]).1.out
        = st.out := by
      simp only [WithValues, goAppend_out]
    obtain ⟨st3, e1, _, e3⟩ := Info_spec grow cfg _ _ 0 m [] lg d1
      (by rw [hlog]; exact hlg)
    refine ⟨st3, _, e1, by rw [e3, hout], ?_⟩
    have hnt : nameTail cfg (WithValues grow (WithValues grow st a [Val.str k1, Val.str v1]).1
        (WithValues grow st a [Val.str k1, Val.str v1]).2 [Val.str k2, Val.str v2]).2 = [] := by
      simp [nameTail, WithValues, hn]
    simp only [d2, he, hnt, List.nil_append, List.append_nil, List.cons_append]
    exact renderPairs_strings k1 v1 k2 v2 "msg" m

/-- Claim C9 on the root sink of the example, which has no values and no
name. -/
theorem WithValues_appends_in_call_order_witness :
    SliceOK exState exRoot.values ∧
    readSlice
      (WithValues goGrow (WithValues goGrow exState exRoot [Val.str "k1", Val.str "v1"]).1
        (WithValues goGrow exState exRoot [Val.str "k1", Val.str "v1"]).2
        [Val.str "k2", Val.str "v2"]).1
      (WithValues goGrow (WithValues goGrow exState exRoot [Val.str "k1", Val.str "v1"]).1
        (WithValues goGrow exState exRoot [Val.str "k1", Val.str "v1"]).2
        [Val.str "k2", Val.str "v2"]).2.values
      = readSlice exState exRoot.values ++ [Val.str "k1", Val.str "v1"] ++
        [Val.str "k2", Val.str "v2"] ∧
    (Info goGrow defaultConfig
      (WithValues goGrow (WithValues goGrow exState exRoot [Val.str "k1", Val.str "v1"]).1
        (WithValues goGrow exState exRoot [Val.str "k1", Val.str "v1"]).2
        [Val.str "k2", Val.str "v2"]).1
      (WithValues goGrow (WithValues goGrow exState exRoot [Val.str "k1", Val.str "v1"]).1
        (WithValues goGrow exState exRoot [Val.str "k1", Val.str "v1"]).2
        [Val.str "k2", Val.str "v2"]).2 0 "m" []).map written =
      some [[Val.str "k1", Val.str "v1", Val.str "k2", Val.str "v2",
        Val.str "msg", Val.str "m"]] :=
  ⟨by decide,
   (WithValues_appends_in_call_order goGrow defaultConfig exState exRoot
     [Val.str "k1", Val.str "v1"] [Val.str "k2", Val.str "v2"] (by decide)).1,
   by decide⟩

/-! ## Trailing order of an error record -/

theorem renderValue_str (t : String) : renderValue (Val.str t) = Val.str t := by
  simp [renderValue, implementsMarshaler, implementsStringer]

theorem renderPairs_append_tail (a b c d f : String) (e : Val) (xs : List Val) :
    renderPairs (xs ++ [Val.str a, Val.str b, Val.str c, e, Val.str d, Val.str f]) =
      renderPairs xs ++ [Val.str a, Val.str b, Val.str c,
        (if xs.length % 2 = 0 then renderValue e else e), Val.str d, Val.str f] := by
  induction xs using renderPairs.induct with
  | case1 k v rest ih =>
    have hp : (rest.length + 1 + 1) % 2 = rest.length % 2 := by omega
    simp only [List.cons_append, renderPairs, List.length_cons, hp]
    exact congrArg (fun t => k :: renderValue v :: t) ih
  | case2 xs hx =>
    match xs, hx with
    | [], _ => simp [renderPairs, renderValue_str]
    | [x], _ => simp [renderPairs, renderValue_str]
    | x :: z :: r, hx => exact absurd rfl (hx _ _ _)

theorem lastPairKey_append (front : List Val) (w x y z : Val) :
    lastPairKey (front ++ [w, x, y, z]) = some y := by
  simp [lastPairKey]

/-- Claim C10 as stated fails: `Error(err, "m")` on the example logger, whose
name is `MyName`, writes
`module, example, msg, m, error, err, logger, MyName`; the last pair is the
name pair, not the error pair. -/
theorem Error_last_pair_is_name :
    exLogger.2.name ≠ "" ∧
    (Error goGrow defaultConfig exLogger.1 exLogger.2 (Val.err "boom") "m" []).map written =
      some [[Val.str "module", Val.str "example", Val.str "msg", Val.str "m",
        Val.str "error", Val.err "boom", Val.str "logger", Val.str "MyName"]] ∧
    (Error goGrow defaultConfig exLogger.1 exLogger.2 (Val.err "boom") "m" []).map
      (fun s => (written s).map lastPairKey) ≠
      some [some (Val.str defaultConfig.ErrorFieldKey)] := by
  decide

/-- Claim C10, amended: for every sink with a non-empty name, the sequence
`Error(err, msg, kvs...)` writes is the rendered accumulated values and
per-call elements, followed by the message pair, followed by the error pair,
followed by the name pair, which is the last pair.  The error value is
rendered when it stands at an odd index, that is when the elements before
the message key are even in number. -/
theorem Error_trailing_order (grow : Nat → Nat → Nat) (cfg : Config) (st : State)
    (l : kitlogger) (err : Val) (msg : String) (kvs : List Val)
    (hv : SliceOK st l.values) (hl : l.kl < st.loggers.length) (hn : l.name ≠ "") :
    ∃ st1 r front, Error grow cfg st l err msg kvs = some st1 ∧ st1.out = st.out ++ [r] ∧
      defaultRenderOf (readSlice st l.values ++ kvs) = some front ∧
      r.kvs = front ++ [Val.str "msg", Val.str msg, Val.str cfg.ErrorFieldKey,
        (if (readSlice st l.values ++ kvs).length % 2 = 0 then renderValue err else err),
        Val.str cfg.NameFieldKey, Val.str l.name] ∧
      lastPairKey r.kvs = some (Val.str cfg.NameFieldKey) := by
  obtain ⟨lg, hlg⟩ := exists_logger st l.kl hl
  obtain ⟨st1, h1, _, h3⟩ := Error_spec grow cfg st l err msg kvs lg hv hlg
  have hseq : renderPairs (readSlice st l.values ++ kvs ++
      [Val.str "msg", Val.str msg, Val.str cfg.ErrorFieldKey, err] ++ nameTail cfg l) =
      renderPairs (readSlice st l.values ++ kvs) ++
        [Val.str "msg", Val.str msg, Val.str cfg.ErrorFieldKey,
          (if (readSlice st l.values ++ kvs).length % 2 = 0 then renderValue err else err),
          Val.str cfg.NameFieldKey, Val.str l.name] := by
    rw [nameTail, if_pos hn, List.append_assoc (readSlice st l.values ++ kvs)]
    exact renderPairs_append_tail "msg" msg cfg.ErrorFieldKey cfg.NameFieldKey l.name err _
  refine ⟨st1, _, renderPairs (readSlice st l.values ++ kvs), h1, h3,
    defaultRenderOf_eq _, hseq, ?_⟩
  rw [hseq]
  have hsplit : renderPairs (readSlice st l.values ++ kvs) ++
      [Val.str "msg", Val.str msg, Val.str cfg.ErrorFieldKey,
        (if (readSlice st l.values ++ kvs).length % 2 = 0 then renderValue err else err),
        Val.str cfg.NameFieldKey, Val.str l.name] =
      (renderPairs (readSlice st l.values ++ kvs) ++ [Val.str "msg", Val.str msg]) ++
      [Val.str cfg.ErrorFieldKey,
        (if (readSlice st l.values ++ kvs).length % 2 = 0 then renderValue err else err),
        Val.str cfg.NameFieldKey, Val.str l.name] := by simp
  rw [hsplit]
  exact lastPairKey_append _ _ _ _ _

/-- Claim C10, amended, on the example logger: `Error(E, "goodbye", "code", -1)`
ends with the error pair followed by the name pair. -/
theorem Error_trailing_order_witness :
    SliceOK exLogger.1 exLogger.2.values ∧ exLogger.2.kl < exLogger.1.loggers.length ∧
    exLogger.2.name ≠ "" ∧
    (∃ st1 r front, Error goGrow defaultConfig exLogger.1 exLogger.2
        (Val.err "an error occurred") "goodbye" [Val.str "code", Val.int (-1)] = some st1 ∧
      st1.out = exLogger.1.out ++ [r] ∧
      defaultRenderOf (readSlice exLogger.1 exLogger.2.values ++
        [Val.str "code", Val.int (-1)]) = some front ∧
      r.kvs = front ++ [Val.str "msg", Val.str "goodbye",
        Val.str defaultConfig.ErrorFieldKey,
        (if (readSlice exLogger.1 exLogger.2.values ++
            [Val.str "code", Val.int (-1)]).length % 2 = 0
          then renderValue (Val.err "an error occurred") else Val.err "an error occurred"),
        Val.str defaultConfig.NameFieldKey, Val.str exLogger.2.name] ∧
      lastPairKey r.kvs = some (Val.str defaultConfig.NameFieldKey)) ∧
    (Error goGrow defaultConfig exLogger.1 exLogger.2
        (Val.err "an error occurred") "goodbye" [Val.str "code", Val.int (-1)]).map
      (fun s => (written s).map lastPairKey) = some [some (Val.str "logger")] :=
  ⟨by decide, by decide, by decide,
   Error_trailing_order goGrow defaultConfig exLogger.1 exLogger.2
     (Val.err "an error occurred") "goodbye" [Val.str "code", Val.int (-1)]
     (by decide) (by decide) (by decide),
   by decide⟩

/-! ## What the terminal operations write to the heap -/

theorem goAppend_apart (g : Nat → Nat → Nat) (st : State) (s k : Slice) (xs : List Val)
    (hs : SliceOK st s) (hk : SliceOK st k) (ha : Apart k s) :
    SliceOK (goAppend g st s xs).1 k ∧ Apart k (goAppend g st s xs).2 ∧
    readSlice (goAppend g st s xs).1 k = readSlice st k := by
  refine ⟨goAppend_frame_ok g st s k xs hs hk, ?_, ?_⟩
  · by_cases hc : s.len + xs.length ≤ s.cap
    · have harr : (goAppend g st s xs).2.arr = s.arr := by simp [goAppend, hc]
      have hoff : (goAppend g st s xs).2.off = s.off := by simp [goAppend, hc]
      have hcap : (goAppend g st s xs).2.cap = s.cap := by simp [goAppend, hc]
      unfold Apart
      rw [harr, hoff, hcap]
      exact ha
    · have harr : (goAppend g st s xs).2.arr = st.arrays.length := by simp [goAppend, hc]
      have hoff : (goAppend g st s xs).2.off = 0 := by simp [goAppend, hc]
      unfold Apart
      rw [harr, hoff]
      by_cases hid : k.arr = st.arrays.length
      · have he := array_of_not_lt st k.arr (by omega)
        have k1 := hk.1
        have k2 := hk.2
        rw [he] at k2
        simp only [List.length_nil] at k2
        exact Or.inr (Or.inl (by omega))
      · exact Or.inl hid
  · apply goAppend_frame_read g st s k xs hs hk
    rcases ha with ha | ha | ha
    · exact Or.inl ha
    · exact Or.inr (Or.inl (by omega))
    · exact Or.inr (Or.inr ha)

/-- The writes of `defaultRender` land inside the slice it renders: a slice
outside the capacity region of the rendered one reads the same afterwards. -/
theorem defaultRender_frame (st : State) (s k : Slice) (hs : SliceOK st s)
    (ha : Apart k s) :
    ∃ st1, defaultRender st s = some (st1, s) ∧ st1.loggers = st.loggers ∧
      st1.out = st.out ∧ readSlice st1 k = readSlice st k := by
  obtain ⟨h1, h2⟩ := hs
  obtain ⟨st1, b0, b1, b2, _, b4, _, b6⟩ :=
    defaultRenderLoop_spec s.len s s.len st 1 (by omega) (by omega)
  refine ⟨st1, by simp [defaultRender, b0], b1, b2, ?_⟩
  apply List.ext_getElem?
  intro j
  rw [readSlice_getElem?, readSlice_getElem?]
  by_cases hj : j < k.len
  · rw [if_pos hj, if_pos hj]
    by_cases hid : k.arr = s.arr
    · rw [hid, b6, if_neg]
      rcases ha with ha | ha | ha
      · exact absurd hid ha
      · omega
      · omega
    · rw [b4 k.arr hid]
  · rw [if_neg hj, if_neg hj]

/-- The three appends of `Info` and `Error` leave every slice outside the
capacity region of `values` as it was, and outside the slice they build. -/
theorem append3_frame (g : Nat → Nat → Nat) (st : State) (s k : Slice)
    (xs ys zs : List Val) (c : Prop) [Decidable c]
    (hs : SliceOK st s) (hk : SliceOK st k) (ha : Apart k s) :
    ∀ r3, (if c then
        goAppend g (goAppend g (goAppend g st s xs).1 (goAppend g st s xs).2 ys).1
          (goAppend g (goAppend g st s xs).1 (goAppend g st s xs).2 ys).2 zs
      else goAppend g (goAppend g st s xs).1 (goAppend g st s xs).2 ys) = r3 →
      SliceOK r3.1 r3.2 ∧ r3.1.loggers = st.loggers ∧ Apart k r3.2 ∧
      readSlice r3.1 k = readSlice st k := by
  intro r3 hr3
  have ok1 := goAppend_ok g st s xs hs
  have lg1 := goAppend_loggers g st s xs
  obtain ⟨k1, a1, rd1⟩ := goAppend_apart g st s k xs hs hk ha
  generalize goAppend g st s xs = r1 at ok1 lg1 k1 a1 rd1 hr3
  have ok2 := goAppend_ok g r1.1 r1.2 ys ok1
  have lg2 := goAppend_loggers g r1.1 r1.2 ys
  obtain ⟨k2, a2, rd2⟩ := goAppend_apart g r1.1 r1.2 k ys ok1 k1 a1
  generalize goAppend g r1.1 r1.2 ys = r2 at ok2 lg2 k2 a2 rd2 hr3
  by_cases hc : c
  · rw [if_pos hc] at hr3
    subst hr3
    obtain ⟨_, a3, rd3⟩ := goAppend_apart g r2.1 r2.2 k zs ok2 k2 a2
    exact ⟨goAppend_ok g r2.1 r2.2 zs ok2,
      by rw [goAppend_loggers, lg2, lg1], a3, by rw [rd3, rd2, rd1]⟩
  · rw [if_neg hc] at hr3
    subst hr3
    exact ⟨ok2, lg2.trans lg1, a2, rd2.trans rd1⟩

theorem Info_frame (g : Nat → Nat → Nat) (cfg : Config) (st : State) (l : kitlogger)
    (level : Int) (msg : String) (kvs : List Val) (k : Slice)
    (hv : SliceOK st l.values) (hl : l.kl < st.loggers.length)
    (hk : SliceOK st k) (ha : Apart k l.values) :
    ∃ st1, Info g cfg st l level msg kvs = some st1 ∧ readSlice st1 k = readSlice st k := by
  obtain ⟨lg, hlg⟩ := exists_logger st l.kl hl
  simp only [Info]
  obtain ⟨ok3, lg3, a3, rd3⟩ := append3_frame g st l.values k kvs
    [Val.str "msg", Val.str msg] [Val.str cfg.NameFieldKey, Val.str l.name]
    (l.name ≠ "") hv hk ha _ rfl
  generalize (if l.name ≠ "" then _ else _ : State × Slice) = r3 at ok3 lg3 a3 rd3 ⊢
  obtain ⟨st4, e4, lg4, _, rd4⟩ := defaultRender_frame r3.1 r3.2 k ok3 a3
  have hl4 : st4.loggers[l.kl]? = some lg := by rw [lg4, lg3]; exact hlg
  by_cases hlev : level > 1
  · refine ⟨kitlogLog st4 (kitlevelDebug lg) r3.2, ?_, ?_⟩
    · simp only [e4, hl4, if_pos hlev]
    · exact rd4.trans rd3
  · refine ⟨kitlogLog st4 (kitlevelInfo lg) r3.2, ?_, ?_⟩
    · simp only [e4, hl4, if_neg hlev]
    · exact rd4.trans rd3

theorem Error_frame (g : Nat → Nat → Nat) (cfg : Config) (st : State) (l : kitlogger)
    (err : Val) (msg : String) (kvs : List Val) (k : Slice)
    (hv : SliceOK st l.values) (hl : l.kl < st.loggers.length)
    (hk : SliceOK st k) (ha : Apart k l.values) :
    ∃ st1, Error g cfg st l err msg kvs = some st1 ∧ readSlice st1 k = readSlice st k := by
  obtain ⟨lg, hlg⟩ := exists_logger st l.kl hl
  simp only [Error]
  obtain ⟨ok3, lg3, a3, rd3⟩ := append3_frame g st l.values k kvs
    [Val.str "msg", Val.str msg, Val.str cfg.ErrorFieldKey, err]
    [Val.str cfg.NameFieldKey, Val.str l.name] (l.name ≠ "") hv hk ha _ rfl
  generalize (if l.name ≠ "" then _ else _ : State × Slice) = r3 at ok3 lg3 a3 rd3 ⊢
  obtain ⟨st4, e4, lg4, _, rd4⟩ := defaultRender_frame r3.1 r3.2 k ok3 a3
  have hl4 : st4.loggers[l.kl]? = some lg := by rw [lg4, lg3]; exact hlg
  refine ⟨kitlogLog st4 (kitlevelError lg) r3.2, ?_, ?_⟩
  · simp only [e4, hl4]
  · exact rd4.trans rd3

/-- Claim C11: rendering does not touch the caller's arguments.  For every
sink and every slice `k` of the caller that lies outside the backing array
region of the sink's `values` (that array is allocated by `append` inside the
sink and never handed out), `Info` and `Error` called with the elements of
`k` return and leave `k` holding the same elements, whatever they are: the
elements are copied by `append` and rendered in the copy. -/
theorem terminal_ops_leave_caller_slice (grow : Nat → Nat → Nat) (cfg : Config)
    (st : State) (l : kitlogger) (k : Slice) (level : Int) (err : Val) (msg : String)
    (hv : SliceOK st l.values) (hl : l.kl < st.loggers.length)
    (hk : SliceOK st k) (ha : Apart k l.values) :
    (∃ st1, Info grow cfg st l level msg (readSlice st k) = some st1 ∧
      readSlice st1 k = readSlice st k) ∧
    (∃ st1, Error grow cfg st l err msg (readSlice st k) = some st1 ∧
      readSlice st1 k = readSlice st k) :=
  ⟨Info_frame grow cfg st l level msg (readSlice st k) k hv hl hk ha,
   Error_frame grow cfg st l err msg (readSlice st k) k hv hl hk ha⟩

/-- Claim C11 on an example: the caller passes `"val2", S` with `S` a
stringer; `Info` writes the string of `S`, and the caller's slice still holds
`S` itself. -/
theorem terminal_ops_leave_caller_slice_witness :
    SliceOK exCallerState exLogger.2.values ∧
    exLogger.2.kl < exCallerState.loggers.length ∧
    SliceOK exCallerState exCallerSlice ∧ Apart exCallerSlice exLogger.2.values ∧
    ((∃ st1, Info goGrow defaultConfig exCallerState exLogger.2 0 "hello"
        (readSlice exCallerState exCallerSlice) = some st1 ∧
      readSlice st1 exCallerSlice = readSlice exCallerState exCallerSlice) ∧
     (∃ st1, Error goGrow defaultConfig exCallerState exLogger.2 Val.nil "hello"
        (readSlice exCallerState exCallerSlice) = some st1 ∧
      readSlice st1 exCallerSlice = readSlice exCallerState exCallerSlice)) ∧
    readSlice exCallerState exCallerSlice = [Val.str "val2", Val.stringer "s"] ∧
    (Info goGrow defaultConfig exCallerState exLogger.2 0 "hello"
        (readSlice exCallerState exCallerSlice)).map
      (fun s => (written s, readSlice s exCallerSlice)) =
      some ([[Val.str "module", Val.str "example", Val.str "val2", Val.str "s",
          Val.str "msg", Val.str "hello", Val.str "logger", Val.str "MyName"]],
        [Val.str "val2", Val.stringer "s"]) :=
  ⟨by decide, by decide, by decide, by decide,
   terminal_ops_leave_caller_slice goGrow defaultConfig exCallerState exLogger.2
     exCallerSlice 0 Val.nil "hello" (by decide) (by decide) (by decide) (by decide),
   by decide, by decide⟩

/-! ## Nil error, enabled levels -/

theorem renderValue_nil : renderValue Val.nil = Val.nil := by
  simp [renderValue, implementsMarshaler, implementsStringer]

theorem renderPairs_append_tail4 (a b c : String) (e : Val) (xs : List Val) :
    renderPairs (xs ++ [Val.str a, Val.str b, Val.str c, e]) =
      renderPairs xs ++ [Val.str a, Val.str b, Val.str c,
        (if xs.length % 2 = 0 then renderValue e else e)] := by
  induction xs using renderPairs.induct with
  | case1 k v rest ih =>
    have hp : (rest.length + 1 + 1) % 2 = rest.length % 2 := by omega
    simp only [List.cons_append, renderPairs, List.length_cons, hp]
    exact congrArg (fun t => k :: renderValue v :: t) ih
  | case2 xs hx =>
    match xs, hx with
    | [], _ => simp [renderPairs, renderValue_str]
    | [x], _ => simp [renderPairs, renderValue_str]
    | x :: z :: r, hx => exact absurd rfl (hx _ _ _)

/-- Claim C12: a nil error is passed through.  On every sink whose `kl`
points to a logger and whose `values` is a slice of the heap,
`Error(nil, msg, kvs...)` returns, makes exactly one backend write, at
severity error, and in the sequence written `ErrorFieldKey` is immediately
followed by the nil value: the sequence is the rendered values and per-call
elements, then `"msg", msg, ErrorFieldKey, nil`, then the name pair when the
name is non-empty. -/
theorem Error_nil_passed_through (grow : Nat → Nat → Nat) (cfg : Config) (st : State)
    (l : kitlogger) (msg : String) (kvs : List Val)
    (hv : SliceOK st l.values) (hl : l.kl < st.loggers.length) :
    ∃ st1 r front, Error grow cfg st l Val.nil msg kvs = some st1 ∧
      st1.out = st.out ++ [r] ∧ r.severity = some Severity.error ∧
      defaultRenderOf (readSlice st l.values ++ kvs) = some front ∧
      r.kvs = front ++ [Val.str "msg", Val.str msg, Val.str cfg.ErrorFieldKey, Val.nil] ++
        (if l.name = "" then [] else [Val.str cfg.NameFieldKey, Val.str l.name]) := by
  obtain ⟨lg, hlg⟩ := exists_logger st l.kl hl
  obtain ⟨st1, h1, _, h3⟩ := Error_spec grow cfg st l Val.nil msg kvs lg hv hlg
  refine ⟨st1, _, renderPairs (readSlice st l.values ++ kvs), h1, h3,
    severity_withLevel lg Severity.error _, defaultRenderOf_eq _, ?_⟩
  by_cases hn : l.name = ""
  · have hne : ¬ l.name ≠ "" := by simp [hn]
    simp only [nameTail, if_neg hne, if_pos hn, List.append_nil]
    rw [renderPairs_append_tail4]
    simp [renderValue_nil]
  · have hne : l.name ≠ "" := hn
    simp only [nameTail, if_pos hne, if_neg hn]
    rw [List.append_assoc (readSlice st l.values ++ kvs)]
    have := renderPairs_append_tail "msg" msg cfg.ErrorFieldKey cfg.NameFieldKey l.name
      Val.nil (readSlice st l.values ++ kvs)
    simp only [List.cons_append, List.nil_append] at this ⊢
    rw [this]
    simp [renderValue_nil]

/-- Claim C12 on the call of the test:
`Error(nil, "uh oh", "trouble", true, "reasons", R)`. -/
theorem Error_nil_passed_through_witness :
    SliceOK exLogger.1 exLogger.2.values ∧ exLogger.2.kl < exLogger.1.loggers.length ∧
    (∃ st1 r front, Error goGrow defaultConfig exLogger.1 exLogger.2 Val.nil "uh oh"
        [Val.str "trouble", Val.bool true, Val.str "reasons", Val.other 0] = some st1 ∧
      st1.out = exLogger.1.out ++ [r] ∧ r.severity = some Severity.error ∧
      defaultRenderOf (readSlice exLogger.1 exLogger.2.values ++
        [Val.str "trouble", Val.bool true, Val.str "reasons", Val.other 0]) = some front ∧
      r.kvs = front ++ [Val.str "msg", Val.str "uh oh",
          Val.str defaultConfig.ErrorFieldKey, Val.nil] ++
        (if exLogger.2.name = "" then []
          else [Val.str defaultConfig.NameFieldKey, Val.str exLogger.2.name])) ∧
    (Error goGrow defaultConfig exLogger.1 exLogger.2 Val.nil "uh oh"
        [Val.str "trouble", Val.bool true, Val.str "reasons", Val.other 0]).map written =
      some [[Val.str "module", Val.str "example", Val.str "trouble", Val.bool true,
        Val.str "reasons", Val.other 0, Val.str "msg", Val.str "uh oh",
        Val.str "error", Val.nil, Val.str "logger", Val.str "MyName"]] :=
  ⟨by decide, by decide,
   Error_nil_passed_through goGrow defaultConfig exLogger.1 exLogger.2 "uh oh"
     [Val.str "trouble", Val.bool true, Val.str "reasons", Val.other 0]
     (by decide) (by decide),
   by decide⟩

/-- Claim C13: `Enabled(level)` is true exactly when `level ≤ 2`, whatever
the sink's backend, name, values and depth are. -/
theorem Enabled_iff_le_two (l : kitlogger) (level : Int) :
    (Enabled l level = true ↔ level ≤ 2) ∧
    ∀ l1 : kitlogger, Enabled l1 level = Enabled l level := by
  constructor
  · simp [Enabled]
  · intro l1
    rfl

/-! ## Call depth -/

theorem wrapInt_of_range (x : Int) (h1 : -9223372036854775808 ≤ x)
    (h2 : x < 9223372036854775808) : wrapInt x = x := by
  unfold wrapInt
  omega

theorem lastValueOf_append_pair (key v : Val) :
    ∀ xs : List Val, xs.length % 2 = 0 → lastValueOf key (xs ++ [key, v]) = some v
  | [], _ => by simp [lastValueOf]
  | [_], h => by simp at h
  | a :: b :: rest, h => by
    have hr : rest.length % 2 = 0 := by
      simp only [List.length_cons] at h
      omega
    have ih : lastValueOf key (rest.append [key, v]) = some v :=
      lastValueOf_append_pair key v rest hr
    simp only [List.cons_append, lastValueOf, ih]

/-- Claim C14: `Init(info)` stores `info.CallDepth + 4`, `WithName` and
`WithValues` carry the stored depth unchanged, and on a sink `a` with that
depth whose `kl` points to the logger `lg`, `WithCallDepth(d)` returns a sink
with the name, values and stored depth of `a` whose backend is
`With(lg, CallerFieldKey, Caller(info.CallDepth + 4 + d))`: the context of
`lg` with that pair at its end, which then decides the caller field.  Sums
are Go `int` sums; they are the exact sums whenever these fit in 64 bits. -/
theorem WithCallDepth_effective_depth (grow : Nat → Nat → Nat) (cfg : Config)
    (st : State) (a : kitlogger) (info : RuntimeInfo) (d : Int) (lg : Logger)
    (hd : a.depth = wrapInt (info.CallDepth + 4)) (hlg : st.loggers[a.kl]? = some lg) :
    (∀ l : kitlogger, (Init l info).depth = wrapInt (info.CallDepth + 4) ∧
      (Init l info).kl = l.kl ∧ (Init l info).name = l.name ∧
      (Init l info).values = l.values) ∧
    (∀ (l : kitlogger) (segment : String), (WithName cfg l segment).depth = l.depth) ∧
    (∀ (l : kitlogger) (kvs : List Val), (WithValues grow st l kvs).2.depth = l.depth) ∧
    (∃ st1 b, WithCallDepth cfg st a d = some (st1, b) ∧
      GetUnderlying st1 b = some (kitlogWith lg [Val.str cfg.CallerFieldKey,
        kitlogCaller (wrapInt (wrapInt (info.CallDepth + 4) + d))]) ∧
      b.name = a.name ∧ b.values = a.values ∧ b.depth = a.depth ∧
      readSlice st1 b.values = readSlice st a.values ∧
      (lg.keyvals.length % 2 = 0 →
        (kitlogWith lg [Val.str cfg.CallerFieldKey,
          kitlogCaller (wrapInt (wrapInt (info.CallDepth + 4) + d))]).keyvals =
          lg.keyvals ++ [Val.str cfg.CallerFieldKey,
            Val.caller (wrapInt (wrapInt (info.CallDepth + 4) + d))] ∧
        callerDepthOf cfg (some (st1, b)) =
          some (wrapInt (wrapInt (info.CallDepth + 4) + d)))) ∧
    (-9223372036854775808 ≤ info.CallDepth + 4 → info.CallDepth + 4 < 9223372036854775808 →
      -9223372036854775808 ≤ info.CallDepth + 4 + d →
      info.CallDepth + 4 + d < 9223372036854775808 →
      wrapInt (wrapInt (info.CallDepth + 4) + d) = info.CallDepth + 4 + d) := by
  refine ⟨fun l => ⟨rfl, rfl, rfl, rfl⟩, ?_, fun l kvs => rfl, ?_, ?_⟩
  · intro l segment
    unfold WithName
    split <;> rfl
  · have hget : ({ st with loggers := st.loggers ++ [kitlogWith lg [Val.str cfg.CallerFieldKey,
        kitlogCaller (wrapInt (a.depth + d))]] } : State).loggers[st.loggers.length]? =
        some (kitlogWith lg [Val.str cfg.CallerFieldKey,
          kitlogCaller (wrapInt (a.depth + d))]) := by
      simp
    refine ⟨{ st with loggers := st.loggers ++ [kitlogWith lg [Val.str cfg.CallerFieldKey,
        kitlogCaller (wrapInt (a.depth + d))]] }, { a with kl := st.loggers.length },
      by simp only [WithCallDepth, hlg], ?_, rfl, rfl, rfl, rfl, ?_⟩
    · rw [← hd]
      exact hget
    · intro hev
      have hkv : (kitlogWith lg [Val.str cfg.CallerFieldKey,
          kitlogCaller (wrapInt (wrapInt (info.CallDepth + 4) + d))]).keyvals =
          lg.keyvals ++ [Val.str cfg.CallerFieldKey,
            Val.caller (wrapInt (wrapInt (info.CallDepth + 4) + d))] := by
        have hlen : (lg.keyvals ++ [Val.str cfg.CallerFieldKey,
            kitlogCaller (wrapInt (wrapInt (info.CallDepth + 4) + d))]).length % 2 = 0 := by
          simp only [List.length_append, List.length_cons, List.length_nil]
          omega
        simp only [kitlogWith, List.length_cons, List.length_nil]
        simp [hlen, hev, kitlogCaller]
      refine ⟨hkv, ?_⟩
      have hu : GetUnderlying ({ st with loggers := st.loggers ++
          [kitlogWith lg [Val.str cfg.CallerFieldKey, kitlogCaller (wrapInt (a.depth + d))]] })
          { a with kl := st.loggers.length } =
          some (kitlogWith lg [Val.str cfg.CallerFieldKey,
            kitlogCaller (wrapInt (wrapInt (info.CallDepth + 4) + d))]) := by
        rw [← hd]
        exact hget
      simp only [callerDepthOf, hu, effectiveCallerDepth, hkv,
        lastValueOf_append_pair _ _ _ hev]
  · intro h1 h2 h3 h4
    rw [wrapInt_of_range _ h1 h2, wrapInt_of_range _ h3 h4]

/-- Claim C14 on the root sink of the example, with `CallDepth = 1` and the
offset 2 of the test helper: the stored depth is 5, the caller valuer bound
has depth 7 and decides the caller field. -/
theorem WithCallDepth_effective_depth_witness :
    exRoot.depth = wrapInt ((1 : Int) + 4) ∧
    exState.loggers[exRoot.kl]? =
      some (Logger.mk 0 [Val.str "caller", Val.caller 5]) ∧
    (∃ st1 b, WithCallDepth defaultConfig exState exRoot 2 = some (st1, b) ∧
      GetUnderlying st1 b = some (Logger.mk 0
        [Val.str "caller", Val.caller 5, Val.str "caller", Val.caller 7]) ∧
      b.depth = 5 ∧ callerDepthOf defaultConfig (some (st1, b)) = some 7) := by
  have h := WithCallDepth_effective_depth goGrow defaultConfig exState exRoot
    (RuntimeInfo.mk 1) 2 (Logger.mk 0 [Val.str "caller", Val.caller 5])
    (by decide) (by decide)
  obtain ⟨_, _, _, ⟨st1, b, e1, e2, _, _, e5, _, e7⟩, _⟩ := h
  refine ⟨by decide, by decide, st1, b, e1, ?_, ?_, ?_⟩
  · rw [e2]
    decide
  · rw [e5]
    decide
  · rw [(e7 (by decide)).2]
    decide

/-! ## Single-step name, mutation by terminal operations, interchangeability -/

/-- Claim C15: `WithName(s)` gives the name `s` when the receiver's name is
empty and `name ++ NameSeparator ++ s` otherwise, for every segment `s`, the
empty one included; backend reference, values and depth are the receiver's. -/
theorem WithName_single_step (cfg : Config) (a : kitlogger) (s : String) :
    (WithName cfg a s).name =
      (if a.name = "" then s else a.name ++ cfg.NameSeparator ++ s) ∧
    (WithName cfg a s).kl = a.kl ∧ (WithName cfg a s).values = a.values ∧
    (WithName cfg a s).depth = a.depth := by
  unfold WithName
  by_cases h : a.name = ""
  · have hne : ¬ a.name ≠ "" := by simp [h]
    rw [if_neg hne, if_pos h]
    exact ⟨rfl, rfl, rfl, rfl⟩
  · have hne : a.name ≠ "" := h
    rw [if_pos hne, if_neg h, String.append_assoc]
    exact ⟨rfl, rfl, rfl, rfl⟩

/-- Claim C16, evaluated: the sink has six accumulated values in an array of
capacity 8, the last one a marshaler `M` whose `MarshalLog` returns a
stringer.  `Info(0, "m")` appends in place and `defaultRender` then overwrites
`M` in the sink's own array: after the call the sink's values end with the
stringer, and a second identical `Info` call writes its string where the
first wrote the stringer. -/
theorem Info_renders_accumulated_values_in_place :
    exMarshalSink.2.values.len = 6 ∧ exMarshalSink.2.values.cap = 8 ∧
    readSlice exMarshalSink.1 exMarshalSink.2.values =
      [Val.str "a", Val.int 1, Val.str "b", Val.int 2,
       Val.str "k", Val.marshaler (Val.stringer "inner")] ∧
    exAfterFirstInfo.map (fun s => readSlice s exMarshalSink.2.values) =
      some [Val.str "a", Val.int 1, Val.str "b", Val.int 2,
        Val.str "k", Val.stringer "inner"] ∧
    exAfterSecondInfo.map written =
      some [[Val.str "a", Val.int 1, Val.str "b", Val.int 2,
          Val.str "k", Val.stringer "inner", Val.str "msg", Val.str "m"],
        [Val.str "a", Val.int 1, Val.str "b", Val.int 2,
          Val.str "k", Val.str "inner", Val.str "msg", Val.str "m"]] := by
  decide

/-- Claim C17: accumulated and per-call pairs are interchangeable.  For every
sink `a` whose `kl` points to a logger and whose `values` is a slice of the
heap, `a.WithValues(x).Info(level, msg, k...)` and
`a.Info(level, msg, (x ++ k)...)` write the same record (same sequence, same
severity), and so do `a.WithValues(x).Error(err, msg, k...)` and
`a.Error(err, msg, (x ++ k)...)`. -/
theorem WithValues_interchangeable_with_call_pairs (grow : Nat → Nat → Nat) (cfg : Config)
    (st : State) (a : kitlogger) (x k : List Val) (level : Int) (err : Val) (msg : String)
    (hv : SliceOK st a.values) (hl : a.kl < st.loggers.length) :
    (∃ s2 s3 r,
      Info grow cfg (WithValues grow st a x).1 (WithValues grow st a x).2 level msg k
        = some s2 ∧ s2.out = st.out ++ [r] ∧
      Info grow cfg st a level msg (x ++ k) = some s3 ∧ s3.out = st.out ++ [r]) ∧
    (∃ s2 s3 r,
      Error grow cfg (WithValues grow st a x).1 (WithValues grow st a x).2 err msg k
        = some s2 ∧ s2.out = st.out ++ [r] ∧
      Error grow cfg st a err msg (x ++ k) = some s3 ∧ s3.out = st.out ++ [r]) := by
  obtain ⟨lg, hlg⟩ := exists_logger st a.kl hl
  obtain ⟨w1, w2, _, _⟩ := WithValues_view grow st a x hv
  obtain ⟨v1, v2, _, _, _⟩ := WithValues_values grow st a x hv
  have hlg1 : (WithValues grow st a x).1.loggers[(WithValues grow st a x).2.kl]? = some lg := by
    rw [w1]
    exact hlg
  have hnt : nameTail cfg (WithValues grow st a x).2 = nameTail cfg a := rfl
  constructor
  · obtain ⟨s2, e2, _, o2⟩ := Info_spec grow cfg _ _ level msg k lg v1 hlg1
    obtain ⟨s3, e3, _, o3⟩ := Info_spec grow cfg st a level msg (x ++ k) lg hv hlg
    rw [w2, v2, hnt, List.append_assoc (readSlice st a.values) x k] at o2
    exact ⟨s2, s3, _, e2, o2, e3, o3⟩
  · obtain ⟨s2, e2, _, o2⟩ := Error_spec grow cfg _ _ err msg k lg v1 hlg1
    obtain ⟨s3, e3, _, o3⟩ := Error_spec grow cfg st a err msg (x ++ k) lg hv hlg
    rw [w2, v2, hnt, List.append_assoc (readSlice st a.values) x k] at o2
    exact ⟨s2, s3, _, e2, o2, e3, o3⟩

/-- Claim C17 on the root sink of the example: `WithValues("k1", S)` then
`Info(2, "m", "k2", 7)` writes what `Info(2, "m", "k1", S, "k2", 7)` writes. -/
theorem WithValues_interchangeable_with_call_pairs_witness :
    SliceOK exState exRoot.values ∧ exRoot.kl < exState.loggers.length ∧
    ((∃ s2 s3 r,
      Info goGrow defaultConfig
        (WithValues goGrow exState exRoot [Val.str "k1", Val.stringer "s"]).1
        (WithValues goGrow exState exRoot [Val.str "k1", Val.stringer "s"]).2
        2 "m" [Val.str "k2", Val.int 7] = some s2 ∧ s2.out = exState.out ++ [r] ∧
      Info goGrow defaultConfig exState exRoot 2 "m"
        ([Val.str "k1", Val.stringer "s"] ++ [Val.str "k2", Val.int 7]) = some s3 ∧
      s3.out = exState.out ++ [r]) ∧
     (∃ s2 s3 r,
      Error goGrow defaultConfig
        (WithValues goGrow exState exRoot [Val.str "k1", Val.stringer "s"]).1
        (WithValues goGrow exState exRoot [Val.str "k1", Val.stringer "s"]).2
        Val.nil "m" [Val.str "k2", Val.int 7] = some s2 ∧ s2.out = exState.out ++ [r] ∧
      Error goGrow defaultConfig exState exRoot Val.nil "m"
        ([Val.str "k1", Val.stringer "s"] ++ [Val.str "k2", Val.int 7]) = some s3 ∧
      s3.out = exState.out ++ [r])) ∧
    (Info goGrow defaultConfig exState exRoot 2 "m"
        ([Val.str "k1", Val.stringer "s"] ++ [Val.str "k2", Val.int 7])).map written =
      some [[Val.str "k1", Val.str "s", Val.str "k2", Val.int 7,
        Val.str "msg", Val.str "m"]] :=
  ⟨by decide, by decide,
   WithValues_interchangeable_with_call_pairs goGrow defaultConfig exState exRoot
     [Val.str "k1", Val.stringer "s"] [Val.str "k2", Val.int 7] 2 Val.nil "m"
     (by decide) (by decide),
   by decide⟩

end gokitlogr
